import Mathlib

/-!
A verification development for the toolpath (G-code) instruction engine of
the 3DCentral application.  The definitions below are a shallow embedding of

  * `src/unnamed/part_003`  — `window.gcodeParser.parse` and `_detectWarnings`;
  * `src/src/modules/filament/filament.js` — the G-code modification engine
    (`applyAndDownload`, `applySpeedOverride`, `applyTempTweak`,
    `applyFanOverride`, `applyLayerPauses`, `applyInjections`,
    `applyAutoEject`, `findLayerStartLines`).

Modelling conventions:

  * JavaScript strings are `List Char`; `text.split('\n')` / `join('\n')`
    are `splitLines` / `joinLines`.
  * JavaScript numbers are modelled by `JsNum`: either `NaN`, `±Infinity`,
    or an exact rational.  Arithmetic is exact over `ℚ` — the rounding of
    IEEE doubles is not modelled (the program only compares, rounds to a
    few decimals, and prints numbers, so exact rationals are faithful for
    every property stated below).  `Math.round` is `⌊x + 1/2⌋` (JS rounds
    ties toward +∞), and `toFixed(k)` rounds ties the same way.
  * `parseFloat` is modelled for sign/digits/decimal-point/exponent forms
    and returns `JsNum.nan` otherwise (the `Infinity` literal and
    whitespace-prefixed forms accepted by JS are not modelled; no G-code
    token uses them).
  * `Math.sqrt` (used only to accumulate `travelDistance`) has no exact
    rational model; the state instead records the list of squared planar
    distances (`travelDistSq`): the program's `travelDistance` is the sum
    of the square roots of this list, so "does not add to travelDistance"
    is exactly "leaves `travelDistSq` unchanged".
-/

/-- JavaScript whitespace characters relevant to `trim` / `\s` splitting
(space, tab, newline, carriage return, vertical tab, form feed). -/
def isWsChar (c : Char) : Bool :=
  c = ' ' || c = '\t' || c = '\n' || c = '\r' || c = '\x0b' || c = '\x0c'

/-- JavaScript `String.prototype.trim`. -/
def jsTrim (s : List Char) : List Char :=
  ((s.dropWhile isWsChar).reverse.dropWhile isWsChar).reverse

/-- JavaScript `text.split('\n')`: cut at every newline character, keeping
empty pieces (`"".split('\n')` is `[""]`). -/
def splitLines : List Char → List (List Char)
  | [] => [[]]
  | c :: cs =>
      match splitLines cs with
      | [] => [[]]
      | l :: ls => if c = '\n' then [] :: l :: ls else (c :: l) :: ls

/-- JavaScript `lines.join('\n')`. -/
def joinLines : List (List Char) → List Char
  | [] => []
  | [l] => l
  | l :: ls => l ++ '\n' :: joinLines ls

theorem splitLines_ne_nil (s : List Char) : splitLines s ≠ [] := by
  cases s with
  | nil => simp [splitLines]
  | cons c cs =>
      simp only [splitLines]
      cases splitLines cs with
      | nil => simp
      | cons l ls => by_cases h : c = '\n' <;> simp [h]

/-- `join('\n')` undoes `split('\n')`. -/
theorem joinLines_splitLines (s : List Char) : joinLines (splitLines s) = s := by
  induction s with
  | nil => rfl
  | cons c cs ih =>
      simp only [splitLines]
      cases h : splitLines cs with
      | nil => exact absurd h (splitLines_ne_nil cs)
      | cons l ls =>
          rw [h] at ih
          by_cases hc : c = '\n'
          · subst hc
            simp only [if_pos rfl]
            cases ls with
            | nil => simpa [joinLines] using ih
            | cons l' ls' => simpa [joinLines] using ih
          · simp only [if_neg hc]
            cases ls with
            | nil => simpa [joinLines] using ih
            | cons l' ls' =>
                simp only [joinLines] at ih ⊢
                simp [← ih]

/-- JavaScript `str.split(/\s+/)` applied to an already-trimmed string:
maximal runs of non-whitespace characters, whitespace runs discarded. -/
def splitWsAux : List Char → List Char → List (List Char)
  | [], acc => if acc = [] then [] else [acc.reverse]
  | c :: cs, acc =>
      if isWsChar c then
        if acc = [] then splitWsAux cs [] else acc.reverse :: splitWsAux cs []
      else splitWsAux cs (c :: acc)

def splitWs (s : List Char) : List (List Char) := splitWsAux s []

/-- Numeric value of a list of decimal digit characters. -/
def digitsVal (ds : List Char) : ℕ :=
  ds.foldl (fun a c => 10 * a + (c.toNat - 48)) 0

/-- Decimal digit characters of a natural number (JS `String(n)` for
integral `n ≥ 0`). -/
def natToChars (n : ℕ) : List Char :=
  if h : n < 10 then [Char.ofNat (n + 48)]
  else natToChars (n / 10) ++ [Char.ofNat (n % 10 + 48)]
  decreasing_by exact Nat.div_lt_self (by omega) (by omega)

/-- JS `String(n)` for an integral number. -/
def intToChars (n : ℤ) : List Char :=
  if n < 0 then '-' :: natToChars n.natAbs else natToChars n.natAbs

/-- A JavaScript number: `NaN`, `±Infinity`, or an exact rational. -/
inductive JsNum where
  | nan : JsNum
  | inf : JsNum
  | ninf : JsNum
  | num : ℚ → JsNum
deriving DecidableEq, Repr

namespace JsNum

/-- JS strict equality `===` on numbers (`NaN === NaN` is false). -/
def seq : JsNum → JsNum → Bool
  | num a, num b => a = b
  | inf, inf => true
  | ninf, ninf => true
  | _, _ => false

/-- JS `<` on numbers (false whenever either side is `NaN`). -/
def jlt : JsNum → JsNum → Bool
  | num a, num b => a < b
  | num _, inf => true
  | ninf, num _ => true
  | ninf, inf => true
  | _, _ => false

/-- JS `>` on numbers. -/
def jgt (a b : JsNum) : Bool := jlt b a

/-- JS truthiness of a number (`0` and `NaN` are falsy). -/
def truthy : JsNum → Bool
  | nan => false
  | num q => q ≠ 0
  | _ => true

def neg : JsNum → JsNum
  | nan => nan
  | inf => ninf
  | ninf => inf
  | num q => num (-q)

def add : JsNum → JsNum → JsNum
  | nan, _ => nan
  | _, nan => nan
  | inf, ninf => nan
  | ninf, inf => nan
  | inf, _ => inf
  | _, inf => inf
  | ninf, _ => ninf
  | _, ninf => ninf
  | num a, num b => num (a + b)

def sub (a b : JsNum) : JsNum := add a (neg b)

def mul : JsNum → JsNum → JsNum
  | nan, _ => nan
  | _, nan => nan
  | inf, inf => inf
  | inf, ninf => ninf
  | ninf, inf => ninf
  | ninf, ninf => inf
  | inf, num q => if q = 0 then nan else if 0 < q then inf else ninf
  | num q, inf => if q = 0 then nan else if 0 < q then inf else ninf
  | ninf, num q => if q = 0 then nan else if 0 < q then ninf else inf
  | num q, ninf => if q = 0 then nan else if 0 < q then ninf else inf
  | num a, num b => num (a * b)

/-- JS `Math.max` (NaN-propagating). -/
def jmax : JsNum → JsNum → JsNum
  | nan, _ => nan
  | _, nan => nan
  | inf, _ => inf
  | _, inf => inf
  | ninf, x => x
  | x, ninf => x
  | num a, num b => num (max a b)

/-- JS `Math.min` (NaN-propagating). -/
def jmin : JsNum → JsNum → JsNum
  | nan, _ => nan
  | _, nan => nan
  | ninf, _ => ninf
  | _, ninf => ninf
  | inf, x => x
  | x, inf => x
  | num a, num b => num (min a b)

/-- JS `Math.abs`. -/
def jabs : JsNum → JsNum
  | nan => nan
  | inf => inf
  | ninf => inf
  | num q => num |q|

end JsNum

/-- JS `Math.round` on a rational: round half toward `+∞`. -/
def jround (q : ℚ) : ℤ := ⌊q + 1 / 2⌋

/-- `parseFloat(x.toFixed(3))`: round to 3 decimal places. -/
def roundTo3 (q : ℚ) : ℚ := (jround (q * 1000) : ℚ) / 1000

def isDigitChar (c : Char) : Bool := '0' ≤ c && c ≤ '9'

/-- Characters matched by the `[\d.]` regex class. -/
def isNumChar (c : Char) : Bool := isDigitChar c || c = '.'

/-- The optional exponent part accepted by `parseFloat` (`e`/`E`, optional
sign, at least one digit); `none` when the tail carries no exponent. -/
def parseExpPart (s : List Char) : Option ℤ :=
  if s.head? = some 'e' ∨ s.head? = some 'E' then
    let t := s.tail
    let t2 := if t.head? = some '-' ∨ t.head? = some '+' then t.tail else t
    let d := t2.takeWhile isDigitChar
    if d = [] then none
    else if t.head? = some '-' then some (-(digitsVal d : ℤ)) else some (digitsVal d : ℤ)
  else none

/-- JS `parseFloat`: optional sign, digits, optional decimal point and
fraction digits, optional exponent; the longest valid numeric prefix is
taken and trailing garbage ignored; `NaN` when no digits can be read. -/
def parseFloat (s : List Char) : JsNum :=
  let s1 := if s.head? = some '-' ∨ s.head? = some '+' then s.tail else s
  let sgn : ℚ := if s.head? = some '-' then -1 else 1
  let ip := s1.takeWhile isDigitChar
  let s2 := s1.dropWhile isDigitChar
  let fp := if s2.head? = some '.' then s2.tail.takeWhile isDigitChar else []
  let s3 := if s2.head? = some '.' then s2.tail.dropWhile isDigitChar else s2
  if ip = [] ∧ fp = [] then JsNum.nan
  else
    let mant : ℚ := (digitsVal ip : ℚ) + (digitsVal fp : ℚ) / (10 ^ fp.length)
    JsNum.num (sgn * mant * (10 : ℚ) ^ (parseExpPart s3).getD 0)

theorem parseFloat_finite (s : List Char) :
    parseFloat s = JsNum.nan ∨ ∃ q, parseFloat s = JsNum.num q := by
  unfold parseFloat
  dsimp only
  split_ifs <;> simp

/-! ## The G-code parser (`window.gcodeParser.parse`, `src/unnamed/part_003`) -/

/-- First maximal digit run of a string (regex `/(\d+)/`). -/
def firstDigitRun : List Char → Option (List Char)
  | [] => none
  | c :: cs =>
      if isDigitChar c then some ((c :: cs).takeWhile isDigitChar)
      else firstDigitRun cs

/-- JS `String.prototype.includes`. -/
def hasInfix (pat : List Char) : List Char → Bool
  | [] => pat.isEmpty
  | c :: cs => pat.isPrefixOf (c :: cs) || hasInfix pat cs

theorem length_dropWhile_le (p : Char → Bool) (l : List Char) :
    (l.dropWhile p).length ≤ l.length := by
  induction l with
  | nil => simp
  | cons c cs ih =>
      rw [List.dropWhile_cons]
      split
      · exact Nat.le_succ_of_le ih
      · exact Nat.le_refl _

/-- Regex `/([\d.]+)\s*m/`: the first maximal `[\d.]+` run followed by
optional whitespace and the letter `m`.  Backtracking inside a run can
never succeed (the character that made the greedy run fail is neither
whitespace nor `m`, and every restart inside the run sees that same
character), so a scan over maximal runs is the exact match semantics. -/
def filaScan : List Char → Option (List Char)
  | [] => none
  | c :: cs =>
      if isNumChar c then
        if ((cs.dropWhile isNumChar).dropWhile isWsChar).head? = some 'm' then
          some ((c :: cs).takeWhile isNumChar)
        else filaScan (cs.dropWhile isNumChar)
      else filaScan cs
termination_by s => s.length
decreasing_by
  · exact Nat.lt_succ_of_le (length_dropWhile_le isNumChar cs)
  · exact Nat.lt_succ_of_le (Nat.le_refl _)

/-- Parameter map built from the tokens after the command code.  JS object
assignment overwrites, so lookup takes the last binding for a key. -/
abbrev Params := List (Char × JsNum)

def buildParams (toks : List (List Char)) : Params :=
  toks.foldl (fun ps p =>
    match p with
    | [] => ps
    | k :: rest => ps ++ [(k, parseFloat rest)]) []

def getParam (ps : Params) (k : Char) : Option JsNum :=
  ps.foldl (fun acc p => if p.1 = k then some p.2 else acc) none

/-- A present *and truthy* numeric parameter (the JS pattern
`params.K && …` / `if (f)`): the value when it is a nonzero finite
number, `none` when absent, `NaN`, or zero (`±Infinity` cannot arise
from `parseFloat` by `parseFloat_finite`; the catch-all treats it as
absent). -/
def truthyParam (ps : Params) (k : Char) : Option ℚ :=
  match getParam ps k with
  | some (JsNum.num q) => if q = 0 then none else some q
  | _ => none

/-- The mutable state of one `parse` pass: the loop-written fields of the
`result` record plus the motion registers (`currentZ`, `lastX/Y/Z`,
`lastE`, `currentE`, `isAbsoluteE`, `layerHeights`, `speedValues`). -/
structure PState where
  estimatedTime_min : ℚ
  filamentLength_mm : JsNum
  maxX : JsNum
  maxY : JsNum
  maxZ : JsNum
  minX : JsNum
  minY : JsNum
  nozzleTemp : ℚ
  bedTemp : ℚ
  retractionCount : ℕ
  retractionDistance : ℚ
  travelDistSq : List JsNum
  printMoves : ℕ
  travelMoves : ℕ
  currentZ : JsNum
  lastX : JsNum
  lastY : JsNum
  lastZ : JsNum
  lastE : ℚ
  currentE : JsNum
  isAbsoluteE : Bool
  layerHeights : List ℚ
  speedValues : List ℚ
deriving DecidableEq, Repr

def initPState : PState :=
  { estimatedTime_min := 0, filamentLength_mm := JsNum.num 0
    maxX := JsNum.num 0, maxY := JsNum.num 0, maxZ := JsNum.num 0
    minX := JsNum.inf, minY := JsNum.inf
    nozzleTemp := 0, bedTemp := 0
    retractionCount := 0, retractionDistance := 0
    travelDistSq := [], printMoves := 0, travelMoves := 0
    currentZ := JsNum.num 0
    lastX := JsNum.num 0, lastY := JsNum.num 0, lastZ := JsNum.num 0
    lastE := 0, currentE := JsNum.num 0, isAbsoluteE := true
    layerHeights := [], speedValues := [] }

/-- `layerHeights.add(parseFloat(z.toFixed(3)))`: a JS `Set`, i.e. insert
if absent.  The guard `z > 0` together with `parseFloat_finite` means `z`
is always a finite number here; the catch-all keeps the function total. -/
def addHeight (hs : List ℚ) (z : JsNum) : List ℚ :=
  match z with
  | JsNum.num q => if roundTo3 q ∈ hs then hs else hs ++ [roundTo3 q]
  | _ => hs

/-- `Math.abs(eChange)` under the guard `eChange < 0`, which forces a
finite number; the catch-all keeps the function total. -/
def jabsQ : JsNum → ℚ
  | JsNum.num q => |q|
  | _ => 0

/-- The `;TIME:` / estimated-printing-time comment handler. -/
def metaTime (s : PState) (line : List Char) : PState :=
  match firstDigitRun line with
  | some ds =>
      if hasInfix "TIME:".data line then
        { s with estimatedTime_min := (jround ((digitsVal ds : ℚ) / 60) : ℚ) }
      else s
  | none => s

/-- The filament-used comment handler. -/
def metaFila (s : PState) (line : List Char) : PState :=
  match filaScan line with
  | some run => { s with filamentLength_mm := JsNum.mul (parseFloat run) (JsNum.num 1000) }
  | none => s

/-- The metadata-comment branch of the parse loop (blank or `;`-prefixed
lines): `;TIME:` / estimated-time and filament-used comments. -/
def stepMeta (s : PState) (line : List Char) : PState :=
  let s :=
    if ";TIME:".data.isPrefixOf line || "; estimated printing time".data.isPrefixOf line then
      metaTime s line
    else s
  if ";Filament used:".data.isPrefixOf line || "; filament used".data.isPrefixOf line then
    metaFila s line
  else s

/-- `if (f) speedValues.push(f / 60)`. -/
def pushSpeed (s : PState) : Option ℚ → PState
  | some q => { s with speedValues := s.speedValues ++ [q / 60] }
  | none => s

/-- `const e = params.E !== undefined ? params.E : (isAbsoluteE ? currentE : 0)`. -/
def motionE (s : PState) (params : Params) : JsNum :=
  (getParam params 'E').getD (if s.isAbsoluteE then s.currentE else JsNum.num 0)

/-- `const eChange = isAbsoluteE ? (e - currentE) : e`.  The source
computes this inside the X/Y branch, but none of the statements before it
in the `G0`/`G1` block modify `isAbsoluteE`, `currentE` or `params`, so
reading it up front is equivalent. -/
def motionEChange (s : PState) (params : Params) : JsNum :=
  if s.isAbsoluteE then JsNum.sub (motionE s params) s.currentE else motionE s params

/-- The three-way move classification from the sign of the extrusion
delta: `> 0` print move, `< 0` retraction, otherwise travel (the `NaN`
delta of a malformed `E` token lands in the travel branch, as in JS). -/
def classifyMove (s : PState) (distSq eChange : JsNum) : PState :=
  if JsNum.jgt eChange (JsNum.num 0) then { s with printMoves := s.printMoves + 1 }
  else if JsNum.jlt eChange (JsNum.num 0) then
    { s with retractionCount := s.retractionCount + 1,
             retractionDistance := s.retractionDistance + jabsQ eChange }
  else { s with travelMoves := s.travelMoves + 1, travelDistSq := s.travelDistSq ++ [distSq] }

/-- The `G0`/`G1` branch of the parse loop. -/
def stepMotion (s : PState) (params : Params) : PState :=
  let x := (getParam params 'X').getD s.lastX
  let y := (getParam params 'Y').getD s.lastY
  let z := (getParam params 'Z').getD s.lastZ
  let e := motionE s params
  let eChange := motionEChange s params
  let s := pushSpeed s (truthyParam params 'F')
  let s :=
    if ¬ JsNum.seq z s.lastZ then
      let s := { s with currentZ := z }
      let s :=
        if JsNum.jgt z (JsNum.num 0) then { s with layerHeights := addHeight s.layerHeights z }
        else s
      { s with maxZ := JsNum.jmax s.maxZ z }
    else s
  let s :=
    if (getParam params 'X').isSome ∨ (getParam params 'Y').isSome then
      let s := { s with maxX := JsNum.jmax s.maxX x, maxY := JsNum.jmax s.maxY y,
                        minX := JsNum.jmin s.minX x, minY := JsNum.jmin s.minY y }
      let distSq := JsNum.add (JsNum.mul (JsNum.sub x s.lastX) (JsNum.sub x s.lastX))
                              (JsNum.mul (JsNum.sub y s.lastY) (JsNum.sub y s.lastY))
      classifyMove s distSq eChange
    else s
  { s with lastX := x, lastY := y, lastZ := z,
           currentE := if s.isAbsoluteE then e else s.currentE }

/-- `if (code === 'G92' && params.E !== undefined) currentE = params.E`. -/
def setCurrentE (s : PState) : Option JsNum → PState
  | some v => { s with currentE := v }
  | none => s

/-- `nozzleTemp = Math.max(nozzleTemp, params.S)` under a truthy `params.S`. -/
def setNozzle (s : PState) : Option ℚ → PState
  | some q => { s with nozzleTemp := max s.nozzleTemp q }
  | none => s

/-- `bedTemp = Math.max(bedTemp, params.S)` under a truthy `params.S`. -/
def setBed (s : PState) : Option ℚ → PState
  | some q => { s with bedTemp := max s.bedTemp q }
  | none => s

/-- The chain of `if (code === …)` statements of the parse loop.  The
temperature updates require a truthy `params.S` (`&& params.S`); by
`parseFloat_finite` a present truthy value is a nonzero rational, so the
running maxima stay rationals. -/
def stepCode (s : PState) (code : List Char) (params : Params) : PState :=
  let s := if code = "G0".data ∨ code = "G1".data then stepMotion s params else s
  let s := if code = "M82".data then { s with isAbsoluteE := true } else s
  let s := if code = "M83".data then { s with isAbsoluteE := false } else s
  let s := if code = "G92".data then setCurrentE s (getParam params 'E') else s
  let s :=
    if code = "M104".data ∨ code = "M109".data then setNozzle s (truthyParam params 'S') else s
  let s :=
    if code = "M140".data ∨ code = "M190".data then setBed s (truthyParam params 'S') else s
  s

/-- One iteration of the parse loop on a raw line. -/
def parseLine (s : PState) (raw : List Char) : PState :=
  let line := jsTrim raw
  if line = [] ∨ line.head? = some ';' then stepMeta s line
  else
    let cmd := jsTrim (line.takeWhile (fun c => c ≠ ';'))
    if cmd = [] then s
    else
      match splitWs cmd with
      | [] => s
      | code :: rest => stepCode s code (buildParams rest)

/-- Insertion sort, ascending — the JS `sort((a, b) => a - b)` on the
distinct (hence duplicate-free) height list. -/
def insertAsc (q : ℚ) : List ℚ → List ℚ
  | [] => [q]
  | x :: xs => if q ≤ x then q :: x :: xs else x :: insertAsc q xs

def sortAsc (l : List ℚ) : List ℚ := l.foldr insertAsc []

/-- `diffs`: rounded deltas of consecutive sorted heights, over the first
`Math.min(length, 20)` heights. -/
def adjDiffs (ss : List ℚ) : List ℚ :=
  List.zipWith (fun prev next => roundTo3 (next - prev)) ss ss.tail

/-- `counts[d] = (counts[d] || 0) + 1`: a JS object keyed by the delta,
kept in first-assignment order.  (JS would enumerate integer-valued keys
first; layer-height deltas are sub-unit so this difference is moot and is
not modelled.) -/
def bumpCount (cs : List (ℚ × ℕ)) (d : ℚ) : List (ℚ × ℕ) :=
  if cs.any (fun p => p.1 = d) then
    cs.map (fun p => if p.1 = d then (p.1, p.2 + 1) else p)
  else cs ++ [(d, 1)]

/-- `Object.entries(counts).sort((a, b) => b[1] - a[1])[0]?.[0] || 0.2`:
JS `sort` is stable, so the head of the sorted list is the first-seen
entry with the maximal count; `0.2` is the fallback for an empty table
(unreachable: the table is built from a nonempty `diffs`).  The
string→number key round-trip (`parseFloat(String(d))`) is the identity
and is not modelled separately. -/
def bestCount : List (ℚ × ℕ) → ℚ
  | [] => 0.2
  | e :: es => (es.foldl (fun best p => if best.2 < p.2 then p else best) e).1

def maxQ : List ℚ → ℚ
  | [] => 0
  | x :: xs => xs.foldl max x

/-- `x.toFixed(1)` fed back through `parseFloat`, on a JS number. -/
def jToFixed1 : JsNum → JsNum
  | JsNum.num q => JsNum.num ((jround (q * 10) : ℚ) / 10)
  | x => x

/-- The exact rational value of the IEEE-754 double `Math.PI`. -/
def jsPI : ℚ := 884279719003555 / 281474976710656

inductive WLevel where
  | error : WLevel
  | warning : WLevel
  | info : WLevel
deriving DecidableEq, Repr

structure Warning where
  level : WLevel
  message : List Char
deriving DecidableEq, Repr

/-- JS number-to-string for warning-message interpolation.  JS prints the
shortest round-tripping decimal; integral values print as plain digits,
the only case any theorem below evaluates.  Non-integral rationals print
here as `num/den`, which no theorem compares. -/
def ratToChars (q : ℚ) : List Char :=
  if q.den = 1 then intToChars q.num
  else intToChars q.num ++ '/' :: natToChars q.den

/-- The record produced by `parse` (the `result` object, after
post-processing).  `travelDistSq` stands for `travelDistance` as
explained in the header; `dimX/dimY/dimZ` are the `dimensions` object. -/
structure GResult where
  layerCount : ℕ
  layerHeight : ℚ
  firstLayerHeight : ℚ
  estimatedTime_min : ℚ
  filamentLength_mm : JsNum
  filamentWeight_g : JsNum
  maxX : JsNum
  maxY : JsNum
  maxZ : JsNum
  minX : JsNum
  minY : JsNum
  nozzleTemp : ℚ
  bedTemp : ℚ
  maxSpeed : ℚ
  retractionCount : ℕ
  retractionDistance : ℚ
  travelDistSq : List JsNum
  printMoves : ℕ
  travelMoves : ℕ
  dimX : JsNum
  dimY : JsNum
  dimZ : JsNum
  warnings : List Warning
deriving DecidableEq, Repr

/-- The single `error`-level diagnostic the engine can emit. -/
def bedErrorWarning : Warning :=
  ⟨WLevel.error, "No heated bed commands detected — adhesion issues likely.".data⟩

/-- `_detectWarnings`: the rule table.  Each rule independently appends
its warning to `result.warnings` in source order, so the final list is
the concatenation of one optional singleton per rule. -/
def detectWarnings (r : GResult) : List Warning :=
  (if JsNum.jlt r.dimX (JsNum.num 0.4) || JsNum.jlt r.dimY (JsNum.num 0.4) then
    [⟨WLevel.warning,
      "Very thin dimensions detected — may be too thin to print reliably.".data⟩]
   else []) ++
  (if 5000 < r.retractionCount then
    [⟨WLevel.warning,
      "High retraction count (".data ++ natToChars r.retractionCount ++
        ") — increased clogging risk.".data⟩]
   else []) ++
  (if 600 < r.estimatedTime_min ∧ (0.15 : ℚ) < r.layerHeight then
    [⟨WLevel.info,
      "Long print with moderate detail. Consider thicker layers to save time.".data⟩]
   else []) ++
  (if 260 < r.nozzleTemp then
    [⟨WLevel.warning,
      "High nozzle temperature (".data ++ ratToChars r.nozzleTemp ++
        "°C) — ensure all-metal hotend.".data⟩]
   else []) ++
  (if r.bedTemp = 0 ∧ 100 < r.printMoves then [bedErrorWarning] else [])

/-- The post-processing after the parse loop: layer statistics, max speed,
filament weight, bounding-box normalization, dimensions, warnings. -/
def finalize (s : PState) : GResult :=
  let sortedHeights := sortAsc s.layerHeights
  let fl : ℚ × ℚ :=
    if 2 ≤ sortedHeights.length then
      let diffs := adjDiffs (sortedHeights.take (min sortedHeights.length 20))
      (sortedHeights.headD 0, bestCount (diffs.foldl bumpCount []))
    else (0, 0)
  let maxSpeed : ℚ := if s.speedValues ≠ [] then (jround (maxQ s.speedValues) : ℚ) else 0
  let weight : JsNum :=
    if JsNum.jgt s.filamentLength_mm (JsNum.num 0) then
      let volume := JsNum.mul (JsNum.mul (JsNum.mul (JsNum.num jsPI) (JsNum.num (1.75 / 2)))
        (JsNum.num (1.75 / 2))) s.filamentLength_mm
      jToFixed1 (JsNum.mul (JsNum.mul volume (JsNum.num 1.24)) (JsNum.num (1 / 1000)))
    else JsNum.num 0
  let minX := if s.minX = JsNum.inf then JsNum.num 0 else s.minX
  let minY := if s.minY = JsNum.inf then JsNum.num 0 else s.minY
  let r : GResult :=
    { layerCount := sortedHeights.length
      layerHeight := fl.2
      firstLayerHeight := fl.1
      estimatedTime_min := s.estimatedTime_min
      filamentLength_mm := s.filamentLength_mm
      filamentWeight_g := weight
      maxX := s.maxX, maxY := s.maxY, maxZ := s.maxZ
      minX := minX, minY := minY
      nozzleTemp := s.nozzleTemp, bedTemp := s.bedTemp
      maxSpeed := maxSpeed
      retractionCount := s.retractionCount
      retractionDistance := s.retractionDistance
      travelDistSq := s.travelDistSq
      printMoves := s.printMoves, travelMoves := s.travelMoves
      dimX := jToFixed1 (JsNum.sub s.maxX minX)
      dimY := jToFixed1 (JsNum.sub s.maxY minY)
      dimZ := jToFixed1 s.maxZ
      warnings := [] }
  { r with warnings := detectWarnings r }

/-- `window.gcodeParser.parse`. -/
def parse (text : List Char) : GResult :=
  finalize ((splitLines text).foldl parseLine initPState)

/-! ## The G-code modification engine (`src/src/modules/filament/filament.js`) -/

/-- `line.split(';')[0].trim()`. -/
def strippedOf (line : List Char) : List Char :=
  jsTrim (line.takeWhile (fun c => c ≠ ';'))

/-- `stripped.split(/\s+/)[0]` on an already-stripped string (`[]` when
blank). -/
def codeOfStripped (cmd : List Char) : List Char :=
  match splitWs cmd with
  | [] => []
  | c :: _ => c

/-- The command code of a raw line. -/
def lineCode (line : List Char) : List Char := codeOfStripped (strippedOf line)

/-- `line.replace(/K([\d.]+)/g, (m, val) => 'K' + subst(parseFloat(val)))`:
global replace for a regex of the form *key character, then a nonempty
greedy `[\d.]+` group*.  A match needs at least one `[\d.]` character
after the key; the group is the maximal run (nothing after it can force
backtracking because the regex ends with the group), and scanning resumes
in the original string right after the matched text. -/
def replaceAllNum (key : Char) (subst : JsNum → List Char) : List Char → List Char
  | [] => []
  | c :: cs =>
      if c = key then
        let run := cs.takeWhile isNumChar
        if run = [] then c :: replaceAllNum key subst cs
        else (c :: subst (parseFloat run)) ++ replaceAllNum key subst (cs.drop run.length)
      else c :: replaceAllNum key subst cs
termination_by s => s.length
decreasing_by
  all_goals simp [List.length_drop]
  all_goals omega

/-- Non-global variant: `line.replace(/K([\d.]+)/, …)` replaces only the
first match and copies the remainder verbatim. -/
def replaceOneNum (key : Char) (subst : JsNum → List Char) : List Char → List Char
  | [] => []
  | c :: cs =>
      if c = key then
        let run := cs.takeWhile isNumChar
        if run = [] then c :: replaceOneNum key subst cs
        else (c :: subst (parseFloat run)) ++ cs.drop run.length
      else c :: replaceOneNum key subst cs

/-- JS string of a number appearing in a template literal. -/
def jnumToChars : JsNum → List Char
  | JsNum.nan => "NaN".data
  | JsNum.inf => "Infinity".data
  | JsNum.ninf => "-Infinity".data
  | JsNum.num q => ratToChars q

/-- `'F' + Math.round(parseFloat(val) * multiplier)` (the replacement body
of `applySpeedOverride`); `Math.round` of a non-finite value is itself. -/
def substSpeed (multiplier : ℚ) : JsNum → List Char
  | JsNum.num q => intToChars (jround (q * multiplier))
  | v => jnumToChars v

/-- `'S' + Math.max(0, Math.round(parseFloat(val) + offset))`. -/
def substTemp (offset : ℚ) : JsNum → List Char
  | JsNum.num q => intToChars (max 0 (jround (q + offset)))
  | JsNum.nan => "NaN".data
  | JsNum.inf => "Infinity".data
  | JsNum.ninf => "0".data

/-- `'S' + Math.min(255, Math.max(0, Math.round(original * scale)))`. -/
def substFan (scale : ℚ) : JsNum → List Char
  | JsNum.num q => intToChars (min 255 (max 0 (jround (q * scale))))
  | JsNum.nan => "NaN".data
  | JsNum.inf => "255".data
  | JsNum.ninf => "0".data

/-- The per-line body of `applySpeedOverride`. -/
def speedLine (multiplier : ℚ) (line : List Char) : List Char :=
  if strippedOf line = [] then line
  else if lineCode line = "G0".data ∨ lineCode line = "G1".data then
    replaceAllNum 'F' (substSpeed multiplier) line
  else line

/-- `applySpeedOverride` (the slider percentage is its only input). -/
def applySpeedOverride (pct : ℤ) (lines : List (List Char)) : List (List Char) :=
  if pct = 100 then lines
  else lines.map (speedLine ((pct : ℚ) / 100))

/-- The per-line body of `applyTempTweak`. -/
def tempLine (nozzleOffset bedOffset : ℤ) (line : List Char) : List Char :=
  if strippedOf line = [] then line
  else if (lineCode line = "M104".data ∨ lineCode line = "M109".data) ∧ nozzleOffset ≠ 0 then
    replaceOneNum 'S' (substTemp (nozzleOffset : ℚ)) line
  else if (lineCode line = "M140".data ∨ lineCode line = "M190".data) ∧ bedOffset ≠ 0 then
    replaceOneNum 'S' (substTemp (bedOffset : ℚ)) line
  else line

def applyTempTweak (nozzleOffset bedOffset : ℤ) (lines : List (List Char)) :
    List (List Char) :=
  if nozzleOffset = 0 ∧ bedOffset = 0 then lines
  else lines.map (tempLine nozzleOffset bedOffset)

/-- The per-line body of `applyFanOverride`. -/
def fanLine (scale : ℚ) (line : List Char) : List Char :=
  if strippedOf line = [] then line
  else if lineCode line = "M106".data then replaceOneNum 'S' (substFan scale) line
  else line

def applyFanOverride (fanPct : ℤ) (lines : List (List Char)) : List (List Char) :=
  if fanPct = 100 then lines
  else lines.map (fanLine ((fanPct : ℚ) / 100))

/-- A layer-pause directive (`layerPauses` array entries).  An absent or
empty `customGcode` is the falsy case of `pause.customGcode`. -/
structure LayerPause where
  layer : ℤ
  command : List Char
  customGcode : List Char
deriving DecidableEq, Repr

inductive InjMode where
  | layer : InjMode
  | line : InjMode
deriving DecidableEq, Repr

/-- A custom-injection directive (`injections` array entries). -/
structure Injection where
  mode : InjMode
  number : ℤ
  gcode : List Char
deriving DecidableEq, Repr

/-- Stable insertion (JS `Array.prototype.sort` is stable): `x` is placed
before the first element whose key is `≤` its own, so elements with equal
keys keep their original relative order when the whole list is sorted by
a right fold. -/
def insertByDesc (key : α → ℤ) (x : α) : List α → List α
  | [] => [x]
  | y :: ys => if key x < key y then y :: insertByDesc key x ys else x :: y :: ys

/-- `[...a].sort((x, y) => y.key - x.key)`: stable descending sort. -/
def sortByDesc (key : α → ℤ) (l : List α) : List α := l.foldr (insertByDesc key) []

/-- JS object lookup for the layer-start map. -/
def lookupFls (map : List (ℤ × ℕ)) (n : ℤ) : Option ℕ :=
  map.foldl (fun acc p => if p.1 = n then some p.2 else acc) none

/-- Regex `/^;\s*(?:LAYER|layer)[:\s_]+(\d+)/i` on a trimmed line.  The
character classes `\s`, `[:\s_]`, `\d` and the literal `layer` word
pairwise rule out backtracking, so greedy maximal runs are exact. -/
def matchLayerComment (line : List Char) : Option ℤ :=
  match line with
  | ';' :: rest =>
      let r1 := rest.dropWhile isWsChar
      if "layer".data.isPrefixOf (r1.map Char.toLower) then
        let r2 := r1.drop 5
        let seps := r2.takeWhile (fun c => c = ':' || c = '_' || isWsChar c)
        if seps = [] then none
        else
          let ds := (r2.drop seps.length).takeWhile isDigitChar
          if ds = [] then none else some (digitsVal ds : ℤ)
      else none
  | _ => none

/-- Regex `cmd.match(/Z([\d.]+)/)`: first `Z` followed by at least one
`[\d.]` character; the group is the maximal run. -/
def firstZNum : List Char → Option JsNum
  | [] => none
  | c :: cs =>
      if c = 'Z' then
        let run := cs.takeWhile isNumChar
        if run = [] then firstZNum cs else some (parseFloat run)
      else firstZNum cs

/-- The running state of `findLayerStartLines`: the map under
construction, the Z cursor (`currentZ`, starts at `-1`) and the heuristic
layer counter. -/
structure FlsState where
  map : List (ℤ × ℕ)
  currentZ : ℚ
  layerNum : ℤ
deriving DecidableEq, Repr

/-- One loop iteration of `findLayerStartLines` on `(index, raw line)`.
`z > currentZ` is false when the matched `[\d.]+` group parses to `NaN`
(e.g. `".."`), hence the finite-only guard. -/
def flsStep (st : FlsState) (p : ℕ × List Char) : FlsState :=
  let line := jsTrim p.2
  match matchLayerComment line with
  | some num =>
      if lookupFls st.map num = none then { st with map := st.map ++ [(num, p.1)] }
      else st
  | none =>
      if line = [] ∨ line.head? = some ';' then st
      else
        let cmd := strippedOf line
        if cmd = [] then st
        else if codeOfStripped cmd = "G0".data ∨ codeOfStripped cmd = "G1".data then
          match firstZNum cmd with
          | some (JsNum.num q) =>
              if st.currentZ < q then
                let st := { st with currentZ := q, layerNum := st.layerNum + 1 }
                if lookupFls st.map st.layerNum = none then
                  { st with map := st.map ++ [(st.layerNum, p.1)] }
                else st
              else st
          | _ => st
        else st

def initFlsState : FlsState := { map := [], currentZ := -1, layerNum := 0 }

/-- `findLayerStartLines`: map from layer number to the line index where
that layer starts. -/
def findLayerStartLines (lines : List (List Char)) : List (ℤ × ℕ) :=
  (lines.enum.foldl flsStep initFlsState).map

/-- `lines.splice(idx, 0, ...insertLines)` for `0 ≤ idx ≤ lines.length`
(an index beyond the end appends, as JS `splice` does). -/
def spliceAt (idx : ℕ) (ins lines : List (List Char)) : List (List Char) :=
  lines.take idx ++ ins ++ lines.drop idx

/-- The block of lines inserted for one layer pause. -/
def pauseBlock (p : LayerPause) : List (List Char) :=
  ("; --- Layer Pause at Layer ".data ++ intToChars p.layer ++ " ---".data) ::
    ((if p.command = "custom".data ∧ p.customGcode ≠ [] then splitLines p.customGcode
      else [p.command ++ " ; Pause at layer ".data ++ intToChars p.layer]) ++
      ["; --- End Layer Pause ---".data])

/-- `applyLayerPauses` (its only inputs are the `layerPauses` array and
the working line list; the map is built once, before any splice). -/
def applyLayerPauses (layerPauses : List LayerPause) (lines : List (List Char)) :
    List (List Char) :=
  if layerPauses = [] then lines
  else
    let layerStartLines := findLayerStartLines lines
    let sortedPauses := sortByDesc (fun p => p.layer) layerPauses
    sortedPauses.foldl (fun ls pause =>
      match lookupFls layerStartLines pause.layer with
      | none => ls
      | some idx => spliceAt idx (pauseBlock pause) ls) lines

/-- The block inserted for a layer-mode injection. -/
def layerInjBlock (inj : Injection) : List (List Char) :=
  ("; --- Custom Injection at Layer ".data ++ intToChars inj.number ++ " ---".data) ::
    (splitLines inj.gcode ++ ["; --- End Custom Injection ---".data])

/-- The block inserted for a line-mode injection. -/
def lineInjBlock (inj : Injection) : List (List Char) :=
  ("; --- Custom Injection at Line ".data ++ intToChars inj.number ++ " ---".data) ::
    (splitLines inj.gcode ++ ["; --- End Custom Injection ---".data])

/-- `applyInjections`: layer-mode injections first (against a map built
from the current lines), then line-mode injections, each batch sorted
descending; a line-mode index outside `[0, length]` is skipped. -/
def applyInjections (injections : List Injection) (lines : List (List Char)) :
    List (List Char) :=
  if injections = [] then lines
  else
    let layerInjects := injections.filter (fun i => i.mode = InjMode.layer)
    let lineInjects := injections.filter (fun i => i.mode = InjMode.line)
    let lines1 :=
      if 0 < layerInjects.length then
        let layerStartLines := findLayerStartLines lines
        (sortByDesc (fun i => i.number) layerInjects).foldl (fun ls inj =>
          match lookupFls layerStartLines inj.number with
          | none => ls
          | some idx => spliceAt idx (layerInjBlock inj) ls) lines
      else lines
    if 0 < lineInjects.length then
      (sortByDesc (fun i => i.number) lineInjects).foldl (fun ls inj =>
        let insertIdx : ℤ := inj.number - 1
        if insertIdx < 0 ∨ (ls.length : ℤ) < insertIdx then ls
        else spliceAt insertIdx.toNat (lineInjBlock inj) ls) lines1
    else lines1

/-- `x.toFixed(1)` as a string, for a finite number. -/
def fixed1Chars (q : ℚ) : List Char :=
  let n := jround (q * 10)
  if n < 0 then '-' :: (natToChars (n.natAbs / 10) ++ '.' :: [Char.ofNat (n.natAbs % 10 + 48)])
  else natToChars (n.natAbs / 10) ++ '.' :: [Char.ofNat (n.natAbs % 10 + 48)]

/-- `x.toFixed(1)` as a string, on a JS number. -/
def jFixed1Chars : JsNum → List Char
  | JsNum.num q => fixed1Chars q
  | v => jnumToChars v

/-- The auto-eject configuration as read from the dialog: the printer
selector, the three block checkboxes, and the numeric fields (already
carrying their `|| default` fallbacks, which JS applies at read time).
`gcodeAnalysis` is the parse result of the loaded file when one exists. -/
structure EjectCfg where
  printer : List Char
  coolEnabled : Bool
  shakeEnabled : Bool
  pushEnabled : Bool
  coolTargetTemp : ℤ
  coolWaitTime : ℤ
  shakeDistance : ℚ
  shakeFeed : ℤ
  shakeReps : ℕ
  pushDistance : ℤ
  pushSpeed : ℤ
  gcodeAnalysis : Option GResult
deriving DecidableEq, Repr

/-- `applyAutoEject`.  In the push-off block, `gcodeAnalysis.dimensions`
is always present on a parse result (see `finalize`), so the `'110'`
arm of the inner ternary is dead and the true arm is taken. -/
def applyAutoEject (cfg : EjectCfg) (lines : List (List Char)) : List (List Char) :=
  let isBambu := cfg.printer = "bambu_a1".data
  if ¬ cfg.coolEnabled ∧ ¬ cfg.shakeEnabled ∧ ¬ cfg.pushEnabled then lines
  else
    let ejectLines : List (List Char) :=
      [[], "; ========== AUTO-EJECT SEQUENCE ==========".data]
    let ejectLines := ejectLines ++
      (if cfg.coolEnabled then
        ["; --- Cool & Release ---".data,
         "M104 S0 ; Turn off nozzle heater".data,
         "M140 S".data ++ intToChars cfg.coolTargetTemp ++
           " ; Set bed to target cool temperature".data,
         "G91 ; Relative positioning".data,
         "G1 E-2 F1800 ; Retract filament".data,
         "G1 Z10 F3000 ; Lift nozzle away from print".data,
         "G90 ; Absolute positioning".data] ++
        (if isBambu then ["G28 X ; Home X axis".data]
         else ["G1 X0 Y".data ++ intToChars (if isBambu then 256 else 220) ++
           " F6000 ; Move to front".data]) ++
        ["M190 S".data ++ intToChars cfg.coolTargetTemp ++ " ; Wait for bed to cool to ".data ++
           intToChars cfg.coolTargetTemp ++ "C".data,
         "G4 S".data ++ intToChars cfg.coolWaitTime ++ " ; Wait ".data ++
           intToChars cfg.coolWaitTime ++ " seconds for part release".data,
         "M140 S0 ; Turn off bed completely".data]
      else [])
    let ejectLines := ejectLines ++
      (if cfg.shakeEnabled then
        ["; --- Bed Shake ---".data] ++
        (if ¬ cfg.coolEnabled then
          ["G91 ; Relative positioning".data, "G1 Z5 F3000 ; Lift nozzle first".data]
         else []) ++
        ["G90 ; Absolute positioning".data,
         "G1 Y".data ++ intToChars (if isBambu then 128 else 110) ++
           " F6000 ; Move to bed center Y".data,
         "G91 ; Relative positioning".data] ++
        (List.range cfg.shakeReps).foldr (fun _ acc =>
          ("G1 Y".data ++ ratToChars cfg.shakeDistance ++ " F".data ++
             intToChars cfg.shakeFeed ++ " ; Shake forward".data) ::
          ("G1 Y-".data ++ ratToChars cfg.shakeDistance ++ " F".data ++
             intToChars cfg.shakeFeed ++ " ; Shake backward".data) :: acc) [] ++
        ["G90 ; Absolute positioning".data]
      else [])
    let ejectLines := ejectLines ++
      (if cfg.pushEnabled then
        ["; --- Push-Off ---".data] ++
        (match cfg.gcodeAnalysis with
         | some ga =>
             let pushZ : ℚ := max 0.3 (if ga.firstLayerHeight ≠ 0 then ga.firstLayerHeight else 0.2)
             let approachX : JsNum :=
               JsNum.jmax (JsNum.num 0)
                 (JsNum.sub (if JsNum.truthy ga.minX then ga.minX else JsNum.num 10)
                   (JsNum.num 10))
             let midY : List Char :=
               jFixed1Chars (JsNum.add (if JsNum.truthy ga.minY then ga.minY else JsNum.num 0)
                 (JsNum.mul ga.dimY (JsNum.num (1 / 2))))
             ["G90 ; Absolute positioning".data,
              "G1 Z".data ++ fixed1Chars pushZ ++ " F1000 ; Lower to push height".data,
              "G1 X".data ++ jnumToChars approachX ++ " Y".data ++ midY ++
                " F3000 ; Move to part edge".data,
              "G1 X".data ++ jnumToChars (JsNum.add approachX (JsNum.num (cfg.pushDistance : ℚ))) ++
                " F".data ++ intToChars cfg.pushSpeed ++ " ; Push part off bed".data]
         | none =>
             ["G90 ; Absolute positioning".data,
              "G1 Z0.3 F1000 ; Lower to push height".data,
              "G1 X10 Y110 F3000 ; Move to starting position".data,
              "G1 X".data ++ intToChars (10 + cfg.pushDistance) ++ " F".data ++
                intToChars cfg.pushSpeed ++ " ; Push part".data]) ++
        ["G91 ; Relative positioning".data,
         "G1 Z20 F3000 ; Lift nozzle after push".data,
         "G90 ; Absolute positioning".data]
      else [])
    let ejectLines := ejectLines ++ ["; --- Cleanup ---".data] ++
      (if ¬ cfg.coolEnabled then
        ["M104 S0 ; Turn off nozzle".data, "M140 S0 ; Turn off bed".data]
       else []) ++
      ["M107 ; Turn off fan".data, "M84 ; Disable steppers".data,
       "; ========== END AUTO-EJECT SEQUENCE ==========".data]
    lines ++ ejectLines

/-- The full directive set of one modification run, as read from the
dialog controls when `applyAndDownload` fires. -/
structure MutCfg where
  speedPct : ℤ
  nozzleOffset : ℤ
  bedOffset : ℤ
  fanPct : ℤ
  layerPauses : List LayerPause
  injections : List Injection
  eject : EjectCfg
deriving DecidableEq, Repr

/-- The modification core of `applyAndDownload`: split into lines, apply
the six stages in their fixed order, join back. -/
def mutate (cfg : MutCfg) (text : List Char) : List Char :=
  joinLines (applyAutoEject cfg.eject
    (applyInjections cfg.injections
      (applyLayerPauses cfg.layerPauses
        (applyFanOverride cfg.fanPct
          (applyTempTweak cfg.nozzleOffset cfg.bedOffset
            (applySpeedOverride cfg.speedPct (splitLines text)))))))

/-! ## Theorems -/

/-- C1: invoking the mutation pipeline with an empty directive set (speed
scale 100 %, fan scale 100 %, both temperature offsets 0, no pauses, no
injections, no eject blocks enabled) returns the input text unchanged,
for every input text. -/
theorem claim_C1 (cfg : MutCfg) (text : List Char)
    (hs : cfg.speedPct = 100) (hn : cfg.nozzleOffset = 0) (hb : cfg.bedOffset = 0)
    (hf : cfg.fanPct = 100) (hp : cfg.layerPauses = []) (hi : cfg.injections = [])
    (hc : cfg.eject.coolEnabled = false) (hsh : cfg.eject.shakeEnabled = false)
    (hpu : cfg.eject.pushEnabled = false) :
    mutate cfg text = text := by
  simp [mutate, applySpeedOverride, applyTempTweak, applyFanOverride, applyLayerPauses,
    applyInjections, applyAutoEject, hs, hn, hb, hf, hp, hi, hc, hsh, hpu,
    joinLines_splitLines]

/-- Closed instance of C1 at a concrete directive set and text. -/
theorem claim_C1_witness :
    mutate ⟨100, 0, 0, 100, [], [],
        ⟨"bambu_a1".data, false, false, false, 30, 60, 2, 3000, 10, 30, 300, none⟩⟩
      "G28\nG1 Z0.2 F300\nM104 S200 ; heat\n".data = "G28\nG1 Z0.2 F300\nM104 S200 ; heat\n".data :=
  claim_C1 _ _ rfl rfl rfl rfl rfl rfl rfl rfl rfl

/-- C2: a pair of layer-pause directives at layers 5 and 2 produces the
same output text whichever order they are supplied in, because
`applyLayerPauses` sorts the pending pauses by layer descending before
splicing. -/
theorem claim_C2 (cfg : MutCfg) (text : List Char) (cmd5 gc5 cmd2 gc2 : List Char) :
    mutate { cfg with layerPauses := [⟨5, cmd5, gc5⟩, ⟨2, cmd2, gc2⟩] } text =
    mutate { cfg with layerPauses := [⟨2, cmd2, gc2⟩, ⟨5, cmd5, gc5⟩] } text := by
  have key : ∀ lines, applyLayerPauses [⟨5, cmd5, gc5⟩, ⟨2, cmd2, gc2⟩] lines =
      applyLayerPauses [⟨2, cmd2, gc2⟩, ⟨5, cmd5, gc5⟩] lines := by
    intro lines
    have hsort : sortByDesc (fun p : LayerPause => p.layer) [⟨5, cmd5, gc5⟩, ⟨2, cmd2, gc2⟩] =
        sortByDesc (fun p : LayerPause => p.layer) [⟨2, cmd2, gc2⟩, ⟨5, cmd5, gc5⟩] := by
      simp [sortByDesc, insertByDesc]
    simp only [applyLayerPauses, hsort]
    simp
  simp only [mutate]
  rw [key]

/-- C9: a line-mode injection at line number 1 splices its whole block
(open marker, payload, close marker) in front of the stream: the result
is the block followed by the original lines, its length is the original
length plus the block length, and dropping the block length recovers the
original stream (so the first line after the injected block is the
original first line). -/
theorem claim_C9 (gcode : List Char) (lines : List (List Char)) :
    applyInjections [⟨InjMode.line, 1, gcode⟩] lines =
      lineInjBlock ⟨InjMode.line, 1, gcode⟩ ++ lines ∧
    (applyInjections [⟨InjMode.line, 1, gcode⟩] lines).length =
      lines.length + (lineInjBlock ⟨InjMode.line, 1, gcode⟩).length ∧
    (applyInjections [⟨InjMode.line, 1, gcode⟩] lines).drop
      (lineInjBlock ⟨InjMode.line, 1, gcode⟩).length = lines := by
  have h : applyInjections [⟨InjMode.line, 1, gcode⟩] lines =
      lineInjBlock ⟨InjMode.line, 1, gcode⟩ ++ lines := by
    simp [applyInjections, sortByDesc, insertByDesc, spliceAt]
  refine ⟨h, ?_, ?_⟩
  · rw [h, List.length_append]; omega
  · rw [h, List.drop_left]

theorem speedLine_nontarget (m : ℚ) (l : List Char)
    (h0 : lineCode l ≠ "G0".data) (h1 : lineCode l ≠ "G1".data) :
    speedLine m l = l := by
  have hc : ¬(lineCode l = "G0".data ∨ lineCode l = "G1".data) := by tauto
  by_cases hb : strippedOf l = [] <;> simp [speedLine, hb, hc]

theorem tempLine_nontarget (noz bed : ℤ) (l : List Char)
    (h0 : lineCode l ≠ "M104".data) (h1 : lineCode l ≠ "M109".data)
    (h2 : lineCode l ≠ "M140".data) (h3 : lineCode l ≠ "M190".data) :
    tempLine noz bed l = l := by
  have hc : ¬((lineCode l = "M104".data ∨ lineCode l = "M109".data) ∧ noz ≠ 0) := by tauto
  have hd : ¬((lineCode l = "M140".data ∨ lineCode l = "M190".data) ∧ bed ≠ 0) := by tauto
  by_cases hb : strippedOf l = [] <;> simp [tempLine, hb, hc, hd]

theorem fanLine_nontarget (scale : ℚ) (l : List Char) (h0 : lineCode l ≠ "M106".data) :
    fanLine scale l = l := by
  by_cases hb : strippedOf l = [] <;> simp [fanLine, hb, h0]

/-- C7: each of the three line-rewrite transforms (speed scale,
temperature offset, fan scale) preserves the number of lines for every
input and every setting, and returns any line whose command code is not
among the codes it targets (`G0`/`G1`; `M104`/`M109`/`M140`/`M190`;
`M106`) unchanged at its position. -/
theorem claim_C7 :
    (∀ (pct : ℤ) (lines : List (List Char)),
      (applySpeedOverride pct lines).length = lines.length) ∧
    (∀ (noz bed : ℤ) (lines : List (List Char)),
      (applyTempTweak noz bed lines).length = lines.length) ∧
    (∀ (fan : ℤ) (lines : List (List Char)),
      (applyFanOverride fan lines).length = lines.length) ∧
    (∀ (pct : ℤ) (lines : List (List Char)) (i : ℕ) (l : List Char),
      lines[i]? = some l → lineCode l ≠ "G0".data → lineCode l ≠ "G1".data →
      (applySpeedOverride pct lines)[i]? = some l) ∧
    (∀ (noz bed : ℤ) (lines : List (List Char)) (i : ℕ) (l : List Char),
      lines[i]? = some l → lineCode l ≠ "M104".data → lineCode l ≠ "M109".data →
      lineCode l ≠ "M140".data → lineCode l ≠ "M190".data →
      (applyTempTweak noz bed lines)[i]? = some l) ∧
    (∀ (fan : ℤ) (lines : List (List Char)) (i : ℕ) (l : List Char),
      lines[i]? = some l → lineCode l ≠ "M106".data →
      (applyFanOverride fan lines)[i]? = some l) := by
  refine ⟨?_, ?_, ?_, ?_, ?_, ?_⟩
  · intro pct lines
    unfold applySpeedOverride; split <;> simp
  · intro noz bed lines
    unfold applyTempTweak; split <;> simp
  · intro fan lines
    unfold applyFanOverride; split <;> simp
  · intro pct lines i l hget h0 h1
    unfold applySpeedOverride
    split
    · exact hget
    · rw [List.getElem?_map, hget, Option.map_some', speedLine_nontarget _ _ h0 h1]
  · intro noz bed lines i l hget h0 h1 h2 h3
    unfold applyTempTweak
    split
    · exact hget
    · rw [List.getElem?_map, hget, Option.map_some', tempLine_nontarget _ _ _ h0 h1 h2 h3]
  · intro fan lines i l hget h0
    unfold applyFanOverride
    split
    · exact hget
    · rw [List.getElem?_map, hget, Option.map_some', fanLine_nontarget _ _ h0]

/-- Closed instance of C7 at a concrete setting and stream. -/
theorem claim_C7_witness :
    (applySpeedOverride 50 ["M140 S60".data, "G1 F100".data]).length = 2 ∧
    (applySpeedOverride 50 ["M140 S60".data, "G1 F100".data])[0]? = some "M140 S60".data ∧
    (applyTempTweak 5 0 ["M140 S60".data, "G1 F100".data])[1]? = some "G1 F100".data ∧
    (applyFanOverride 50 ["M140 S60".data, "G1 F100".data])[1]? = some "G1 F100".data := by
  refine ⟨?_, ?_, ?_, ?_⟩
  · exact claim_C7.1 50 _
  · exact claim_C7.2.2.2.1 50 _ 0 _ (by decide)
      (by with_unfolding_all decide) (by with_unfolding_all decide)
  · exact claim_C7.2.2.2.2.1 5 0 _ 1 _ (by decide)
      (by with_unfolding_all decide) (by with_unfolding_all decide)
      (by with_unfolding_all decide) (by with_unfolding_all decide)
  · exact claim_C7.2.2.2.2.2 50 _ 1 _ (by decide) (by with_unfolding_all decide)

theorem lookupFls_append (m : List (ℤ × ℕ)) (k : ℤ) (j : ℕ) (n : ℤ) :
    lookupFls (m ++ [(k, j)]) n = if k = n then some j else lookupFls m n := by
  simp [lookupFls, List.foldl_append]

/-- One `findLayerStartLines` iteration never overwrites an existing
binding: both the explicit-annotation path and the Z-heuristic path
insert only under an `undefined` check. -/
theorem flsStep_preserves (st : FlsState) (p : ℕ × List Char) (n : ℤ) (i : ℕ)
    (h : lookupFls st.map n = some i) : lookupFls (flsStep st p).map n = some i := by
  have key : ∀ (k : ℤ) (j : ℕ), lookupFls st.map k = none →
      lookupFls (st.map ++ [(k, j)]) n = some i := by
    intro k j hk
    rw [lookupFls_append]
    split_ifs with hkn
    · rw [hkn, h] at hk; cases hk
    · exact h
  unfold flsStep
  dsimp only
  split
  · split_ifs with hnew
    · exact key _ _ hnew
    · exact h
  · cases hz : firstZNum (strippedOf (jsTrim p.2)) with
    | none => dsimp only; split_ifs <;> exact h
    | some z =>
        cases z <;> dsimp only <;> split_ifs <;> first | exact h | exact key _ _ ‹_›

/-- C6: the layer-index map is first-match-wins.  If after processing a
prefix of the enumerated lines a layer number is mapped to a line index,
then no later line — neither a later explicit `;LAYER` annotation for the
same number nor a later Z-heuristic crossing reaching the same counter
value — changes that binding in the final map. -/
theorem claim_C6 (pre post : List (ℕ × List Char)) (n : ℤ) (i : ℕ)
    (h : lookupFls (pre.foldl flsStep initFlsState).map n = some i) :
    lookupFls ((pre ++ post).foldl flsStep initFlsState).map n = some i := by
  rw [List.foldl_append]
  generalize hst : pre.foldl flsStep initFlsState = st at h
  clear hst
  induction post generalizing st with
  | nil => exact h
  | cons p ps ih =>
      rw [List.foldl_cons]
      exact ih _ (flsStep_preserves st p n i h)

/-- Closed instance of C6: layer 1 is mapped at line index 0 by an
explicit annotation, and stays mapped there after a later annotation for
the same layer and a later Z-heuristic crossing reaching counter 1. -/
theorem claim_C6_witness :
    lookupFls ([(0, ";LAYER:1".data)].foldl flsStep initFlsState).map 1 = some 0 ∧
    lookupFls (([(0, ";LAYER:1".data)] ++
      [(1, "; LAYER 1 again".data), (2, "G1 Z0.4".data)]).foldl flsStep initFlsState).map 1 =
      some 0 := by
  have h : lookupFls ([((0 : ℕ), ";LAYER:1".data)].foldl flsStep initFlsState).map 1 =
      some 0 := by with_unfolding_all decide
  exact ⟨h, claim_C6 [(0, ";LAYER:1".data)] [(1, "; LAYER 1 again".data),
    (2, "G1 Z0.4".data)] 1 0 h⟩

theorem classifyMove_retract (s : PState) (distSq : JsNum) (d : ℚ) (hd : d < 0) :
    classifyMove s distSq (JsNum.num d) =
      { s with retractionCount := s.retractionCount + 1,
               retractionDistance := s.retractionDistance + |d| } := by
  have h1 : JsNum.jgt (JsNum.num d) (JsNum.num 0) = false := by
    simp [JsNum.jgt, JsNum.jlt]; linarith
  have h2 : JsNum.jlt (JsNum.num d) (JsNum.num 0) = true := by
    simp [JsNum.jlt]; exact hd
  simp [classifyMove, h1, h2, jabsQ]

theorem pushSpeed_keeps (s : PState) (o : Option ℚ) :
    (pushSpeed s o).retractionCount = s.retractionCount ∧
    (pushSpeed s o).retractionDistance = s.retractionDistance ∧
    (pushSpeed s o).printMoves = s.printMoves ∧
    (pushSpeed s o).travelDistSq = s.travelDistSq := by
  cases o <;> simp [pushSpeed]

theorem stepMotion_retract (s : PState) (params : Params) (d : ℚ)
    (hxy : (getParam params 'X').isSome ∨ (getParam params 'Y').isSome)
    (he : motionEChange s params = JsNum.num d) (hd : d < 0) :
    (stepMotion s params).retractionCount = s.retractionCount + 1 ∧
    (stepMotion s params).retractionDistance = s.retractionDistance + |d| ∧
    (stepMotion s params).printMoves = s.printMoves ∧
    (stepMotion s params).travelDistSq = s.travelDistSq := by
  unfold stepMotion
  dsimp only
  rw [he, if_pos hxy, classifyMove_retract _ _ _ hd]
  obtain ⟨p1, p2, p3, p4⟩ := pushSpeed_keeps s (truthyParam params 'F')
  split_ifs with hz hg <;> simp [p1, p2, p3, p4]

/-- C3: on a motion line carrying an explicit `X` or `Y` parameter whose
extrusion delta (absolute vs. relative mode respected) is a negative
number `d`, the parse step increments `retractionCount`, adds `|d|` to
the retraction distance, and leaves the print-move count and the travel
distance accumulator unchanged. -/
theorem claim_C3 (s : PState) (raw : List Char) (code : List Char)
    (rest : List (List Char)) (d : ℚ)
    (hblank : ¬(jsTrim raw = [] ∨ (jsTrim raw).head? = some ';'))
    (hsplit : splitWs (jsTrim ((jsTrim raw).takeWhile (fun c => c ≠ ';'))) = code :: rest)
    (hcode : code = "G0".data ∨ code = "G1".data)
    (hxy : (getParam (buildParams rest) 'X').isSome ∨
      (getParam (buildParams rest) 'Y').isSome)
    (he : motionEChange s (buildParams rest) = JsNum.num d) (hd : d < 0) :
    (parseLine s raw).retractionCount = s.retractionCount + 1 ∧
    (parseLine s raw).retractionDistance = s.retractionDistance + |d| ∧
    (parseLine s raw).printMoves = s.printMoves ∧
    (parseLine s raw).travelDistSq = s.travelDistSq := by
  have hcmd : jsTrim ((jsTrim raw).takeWhile (fun c => c ≠ ';')) ≠ [] := by
    intro hc; rw [hc] at hsplit; simp [splitWs, splitWsAux] at hsplit
  have hstep : parseLine s raw = stepCode s code (buildParams rest) := by
    unfold parseLine
    dsimp only
    rw [if_neg hblank, if_neg hcmd, hsplit]
  have hsm : stepCode s code (buildParams rest) = stepMotion s (buildParams rest) := by
    rcases hcode with h | h <;> subst h <;> with_unfolding_all rfl
  rw [hstep, hsm]
  exact stepMotion_retract s (buildParams rest) d hxy he hd

/-- Closed instance of C3: `G1 X5 E-2` from the initial state. -/
theorem claim_C3_witness :
    (parseLine initPState "G1 X5 E-2".data).retractionCount =
      initPState.retractionCount + 1 ∧
    (parseLine initPState "G1 X5 E-2".data).retractionDistance =
      initPState.retractionDistance + |(-2 : ℚ)| ∧
    (parseLine initPState "G1 X5 E-2".data).printMoves = initPState.printMoves ∧
    (parseLine initPState "G1 X5 E-2".data).travelDistSq = initPState.travelDistSq :=
  claim_C3 initPState "G1 X5 E-2".data "G1".data ["X5".data, "E-2".data] (-2)
    (by with_unfolding_all decide) (by with_unfolding_all decide) (Or.inr rfl)
    (Or.inl (by with_unfolding_all decide)) (by with_unfolding_all decide) (by norm_num)

/-- Spec-side reading for C4: the distinct positive Z-heights visited by
motion commands, rounded to 3 decimals, collected in first-visited order.
The effective Z of a motion line is its `Z` parameter when present, else
the previous effective Z (the cursor starts at 0 like the parser's
register). -/
def specVisitStep (st : JsNum × List ℚ) (raw : List Char) : JsNum × List ℚ :=
  let line := jsTrim raw
  if line = [] ∨ line.head? = some ';' then st
  else
    let cmd := jsTrim (line.takeWhile (fun c => c ≠ ';'))
    if cmd = [] then st
    else
      match splitWs cmd with
      | [] => st
      | code :: rest =>
          if code = "G0".data ∨ code = "G1".data then
            let z := (getParam (buildParams rest) 'Z').getD st.1
            (z,
              match z with
              | JsNum.num q =>
                  if 0 < q then
                    (if roundTo3 q ∈ st.2 then st.2 else st.2 ++ [roundTo3 q])
                  else st.2
              | _ => st.2)
          else st

/-- The number of distinct positive rounded Z-heights visited by the
motion commands of a text. -/
def visitedHeights (text : List Char) : List ℚ :=
  ((splitLines text).foldl specVisitStep (JsNum.num 0, [])).2

@[simp] theorem pushSpeed_lastZ (s : PState) (o : Option ℚ) :
    (pushSpeed s o).lastZ = s.lastZ := by cases o <;> rfl

@[simp] theorem pushSpeed_layerHeights (s : PState) (o : Option ℚ) :
    (pushSpeed s o).layerHeights = s.layerHeights := by cases o <;> rfl

@[simp] theorem pushSpeed_bedTemp (s : PState) (o : Option ℚ) :
    (pushSpeed s o).bedTemp = s.bedTemp := by cases o <;> rfl

@[simp] theorem setCurrentE_lastZ (s : PState) (o : Option JsNum) :
    (setCurrentE s o).lastZ = s.lastZ := by cases o <;> rfl

@[simp] theorem setCurrentE_layerHeights (s : PState) (o : Option JsNum) :
    (setCurrentE s o).layerHeights = s.layerHeights := by cases o <;> rfl

@[simp] theorem setCurrentE_bedTemp (s : PState) (o : Option JsNum) :
    (setCurrentE s o).bedTemp = s.bedTemp := by cases o <;> rfl

@[simp] theorem setNozzle_lastZ (s : PState) (o : Option ℚ) :
    (setNozzle s o).lastZ = s.lastZ := by cases o <;> rfl

@[simp] theorem setNozzle_layerHeights (s : PState) (o : Option ℚ) :
    (setNozzle s o).layerHeights = s.layerHeights := by cases o <;> rfl

@[simp] theorem setNozzle_bedTemp (s : PState) (o : Option ℚ) :
    (setNozzle s o).bedTemp = s.bedTemp := by cases o <;> rfl

@[simp] theorem setBed_lastZ (s : PState) (o : Option ℚ) :
    (setBed s o).lastZ = s.lastZ := by cases o <;> rfl

@[simp] theorem setBed_layerHeights (s : PState) (o : Option ℚ) :
    (setBed s o).layerHeights = s.layerHeights := by cases o <;> rfl

@[simp] theorem classifyMove_lastZ (s : PState) (d e : JsNum) :
    (classifyMove s d e).lastZ = s.lastZ := by
  unfold classifyMove; split_ifs <;> rfl

@[simp] theorem classifyMove_layerHeights (s : PState) (d e : JsNum) :
    (classifyMove s d e).layerHeights = s.layerHeights := by
  unfold classifyMove; split_ifs <;> rfl

@[simp] theorem classifyMove_bedTemp (s : PState) (d e : JsNum) :
    (classifyMove s d e).bedTemp = s.bedTemp := by
  unfold classifyMove; split_ifs <;> rfl

@[simp] theorem metaTime_lastZ (s : PState) (line : List Char) :
    (metaTime s line).lastZ = s.lastZ := by
  unfold metaTime; split <;> first | rfl | (split_ifs <;> rfl)

@[simp] theorem metaTime_layerHeights (s : PState) (line : List Char) :
    (metaTime s line).layerHeights = s.layerHeights := by
  unfold metaTime; split <;> first | rfl | (split_ifs <;> rfl)

@[simp] theorem metaTime_bedTemp (s : PState) (line : List Char) :
    (metaTime s line).bedTemp = s.bedTemp := by
  unfold metaTime; split <;> first | rfl | (split_ifs <;> rfl)

@[simp] theorem metaFila_lastZ (s : PState) (line : List Char) :
    (metaFila s line).lastZ = s.lastZ := by unfold metaFila; split <;> rfl

@[simp] theorem metaFila_layerHeights (s : PState) (line : List Char) :
    (metaFila s line).layerHeights = s.layerHeights := by unfold metaFila; split <;> rfl

@[simp] theorem metaFila_bedTemp (s : PState) (line : List Char) :
    (metaFila s line).bedTemp = s.bedTemp := by unfold metaFila; split <;> rfl

@[simp] theorem stepMeta_lastZ (s : PState) (line : List Char) :
    (stepMeta s line).lastZ = s.lastZ := by
  unfold stepMeta; dsimp only; split_ifs <;> simp

@[simp] theorem stepMeta_layerHeights (s : PState) (line : List Char) :
    (stepMeta s line).layerHeights = s.layerHeights := by
  unfold stepMeta; dsimp only; split_ifs <;> simp

@[simp] theorem stepMeta_bedTemp (s : PState) (line : List Char) :
    (stepMeta s line).bedTemp = s.bedTemp := by
  unfold stepMeta; dsimp only; split_ifs <;> simp

theorem stepMotion_lastZ (s : PState) (params : Params) :
    (stepMotion s params).lastZ = (getParam params 'Z').getD s.lastZ := by
  unfold stepMotion; dsimp only

theorem stepMotion_layerHeights (s : PState) (params : Params) :
    (stepMotion s params).layerHeights =
      (if ¬ JsNum.seq ((getParam params 'Z').getD s.lastZ) s.lastZ then
        (if JsNum.jgt ((getParam params 'Z').getD s.lastZ) (JsNum.num 0) then
          addHeight s.layerHeights ((getParam params 'Z').getD s.lastZ)
         else s.layerHeights)
       else s.layerHeights) := by
  unfold stepMotion
  dsimp only
  simp only [pushSpeed_lastZ, pushSpeed_layerHeights, apply_ite PState.layerHeights,
    classifyMove_layerHeights]
  split_ifs <;> simp

theorem stepMotion_bedTemp (s : PState) (params : Params) :
    (stepMotion s params).bedTemp = s.bedTemp := by
  unfold stepMotion
  dsimp only
  simp only [pushSpeed_lastZ, pushSpeed_bedTemp, apply_ite PState.bedTemp,
    classifyMove_bedTemp]
  split_ifs <;> simp

theorem stepCode_zl (s : PState) (params : Params) (code : List Char)
    (h0 : code ≠ "G0".data) (h1 : code ≠ "G1".data) :
    (stepCode s code params).lastZ = s.lastZ ∧
    (stepCode s code params).layerHeights = s.layerHeights := by
  unfold stepCode
  dsimp only
  split_ifs <;> simp_all

/-- The invariant carried through the C4 synchronization: a positive last
Z is already recorded (rounded) in the height set. -/
def ZInv (s : PState) : Prop :=
  ∀ q : ℚ, s.lastZ = JsNum.num q → 0 < q → roundTo3 q ∈ s.layerHeights

theorem visitStep_sync (s : PState) (raw : List Char) (hinv : ZInv s) :
    (specVisitStep (s.lastZ, s.layerHeights) raw).1 = (parseLine s raw).lastZ ∧
    (specVisitStep (s.lastZ, s.layerHeights) raw).2 = (parseLine s raw).layerHeights ∧
    ZInv (parseLine s raw) := by
  unfold parseLine specVisitStep
  dsimp only
  by_cases hb : jsTrim raw = [] ∨ (jsTrim raw).head? = some ';'
  · rw [if_pos hb, if_pos hb]
    refine ⟨by simp, by simp, ?_⟩
    intro q hq hpos
    rw [stepMeta_layerHeights]
    exact hinv q (by rwa [stepMeta_lastZ] at hq) hpos
  · rw [if_neg hb, if_neg hb]
    by_cases hc : jsTrim ((jsTrim raw).takeWhile (fun c => c ≠ ';')) = []
    · rw [if_pos hc, if_pos hc]; exact ⟨rfl, rfl, hinv⟩
    · rw [if_neg hc, if_neg hc]
      cases hsp : splitWs (jsTrim ((jsTrim raw).takeWhile (fun c => c ≠ ';'))) with
      | nil => exact ⟨rfl, rfl, hinv⟩
      | cons code rest =>
          dsimp only
          split_ifs with hcode
          · have hsc : stepCode s code (buildParams rest) = stepMotion s (buildParams rest) := by
              rcases hcode with h | h <;> subst h <;> with_unfolding_all rfl
            rw [hsc]
            refine ⟨by rw [stepMotion_lastZ], ?_, ?_⟩
            · rw [stepMotion_layerHeights]
              cases hz : (getParam (buildParams rest) 'Z').getD s.lastZ with
              | num q =>
                  dsimp only
                  by_cases hseq : JsNum.seq (JsNum.num q) s.lastZ = true
                  · have hne : ¬¬JsNum.seq (JsNum.num q) s.lastZ = true := by simp [hseq]
                    by_cases hpos : 0 < q
                    · have hlz : s.lastZ = JsNum.num q := by
                        cases hlz : s.lastZ with
                        | num p => rw [hlz] at hseq; simp [JsNum.seq] at hseq; rw [hseq]
                        | nan => rw [hlz] at hseq; simp [JsNum.seq] at hseq
                        | inf => rw [hlz] at hseq; simp [JsNum.seq] at hseq
                        | ninf => rw [hlz] at hseq; simp [JsNum.seq] at hseq
                      rw [if_pos hpos, if_pos (hinv q hlz hpos), if_neg hne]
                    · rw [if_neg hpos, if_neg hne]
                  · have hne : ¬JsNum.seq (JsNum.num q) s.lastZ = true := by simpa using hseq
                    by_cases hpos : 0 < q
                    · rw [if_pos hpos, if_pos hne,
                        if_pos (show JsNum.jgt (JsNum.num q) (JsNum.num 0) = true by
                          simp [JsNum.jgt, JsNum.jlt]; exact hpos)]
                      simp [addHeight]
                    · rw [if_neg hpos, if_pos hne,
                        if_neg (show ¬JsNum.jgt (JsNum.num q) (JsNum.num 0) = true by
                          simp [JsNum.jgt, JsNum.jlt]; exact le_of_not_lt hpos)]
              | nan =>
                  dsimp only
                  rw [if_pos (show ¬JsNum.seq JsNum.nan s.lastZ = true by
                      cases s.lastZ <;> simp [JsNum.seq]),
                    if_neg (show ¬JsNum.jgt JsNum.nan (JsNum.num 0) = true by
                      simp [JsNum.jgt, JsNum.jlt])]
              | inf =>
                  dsimp only
                  by_cases hseq : JsNum.seq JsNum.inf s.lastZ = true
                  · rw [if_neg (show ¬¬JsNum.seq JsNum.inf s.lastZ = true by simp [hseq])]
                  · rw [if_pos (show ¬JsNum.seq JsNum.inf s.lastZ = true by simpa using hseq)]
                    by_cases hg : JsNum.jgt JsNum.inf (JsNum.num 0) = true
                    · rw [if_pos hg]; simp [addHeight]
                    · rw [if_neg hg]
              | ninf =>
                  dsimp only
                  by_cases hseq : JsNum.seq JsNum.ninf s.lastZ = true
                  · rw [if_neg (show ¬¬JsNum.seq JsNum.ninf s.lastZ = true by simp [hseq])]
                  · rw [if_pos (show ¬JsNum.seq JsNum.ninf s.lastZ = true by simpa using hseq),
                      if_neg (show ¬JsNum.jgt JsNum.ninf (JsNum.num 0) = true by
                        simp [JsNum.jgt, JsNum.jlt])]
            · intro q hq hpos
              rw [stepMotion_lastZ] at hq
              rw [stepMotion_layerHeights, hq]
              by_cases hseq : JsNum.seq (JsNum.num q) s.lastZ = true
              · rw [if_neg (show ¬¬JsNum.seq (JsNum.num q) s.lastZ = true by simp [hseq])]
                have hlz : s.lastZ = JsNum.num q := by
                  cases hlz : s.lastZ with
                  | num p => rw [hlz] at hseq; simp [JsNum.seq] at hseq; rw [hseq]
                  | nan => rw [hlz] at hseq; simp [JsNum.seq] at hseq
                  | inf => rw [hlz] at hseq; simp [JsNum.seq] at hseq
                  | ninf => rw [hlz] at hseq; simp [JsNum.seq] at hseq
                exact hinv q hlz hpos
              · rw [if_pos (show ¬JsNum.seq (JsNum.num q) s.lastZ = true by simpa using hseq),
                  if_pos (show JsNum.jgt (JsNum.num q) (JsNum.num 0) = true by
                    simp [JsNum.jgt, JsNum.jlt]; exact hpos)]
                by_cases hmem : roundTo3 q ∈ s.layerHeights <;> simp [addHeight, hmem]
          · obtain ⟨e1, e2⟩ := stepCode_zl s (buildParams rest) code
              (fun h => hcode (Or.inl h)) (fun h => hcode (Or.inr h))
            refine ⟨e1.symm, e2.symm, ?_⟩
            intro q hq hpos
            rw [e2]
            exact hinv q (by rwa [e1] at hq) hpos

theorem foldl_sync (lines : List (List Char)) :
    ∀ s : PState, ZInv s →
      (lines.foldl specVisitStep (s.lastZ, s.layerHeights)).2 =
        (lines.foldl parseLine s).layerHeights ∧ ZInv (lines.foldl parseLine s) := by
  induction lines with
  | nil => intro s hinv; exact ⟨rfl, hinv⟩
  | cons raw rest ih =>
      intro s hinv
      obtain ⟨e1, e2, hinv'⟩ := visitStep_sync s raw hinv
      rw [List.foldl_cons, List.foldl_cons,
        show specVisitStep (s.lastZ, s.layerHeights) raw =
          ((parseLine s raw).lastZ, (parseLine s raw).layerHeights) from
          Prod.ext e1 e2]
      exact ih (parseLine s raw) hinv'

theorem insertAsc_length (q : ℚ) (l : List ℚ) : (insertAsc q l).length = l.length + 1 := by
  induction l with
  | nil => rfl
  | cons x xs ih => unfold insertAsc; split_ifs <;> simp [ih]

theorem sortAsc_length (l : List ℚ) : (sortAsc l).length = l.length := by
  induction l with
  | nil => rfl
  | cons x xs ih => simp [sortAsc, List.foldr_cons, insertAsc_length]
                    simpa [sortAsc] using ih

theorem finalize_layerCount (s : PState) :
    (finalize s).layerCount = s.layerHeights.length := by
  unfold finalize
  dsimp only
  rw [sortAsc_length]

theorem finalize_small (s : PState) (h : (sortAsc s.layerHeights).length < 2) :
    (finalize s).firstLayerHeight = 0 ∧ (finalize s).layerHeight = 0 := by
  unfold finalize
  dsimp only
  rw [if_neg (by omega)]
  exact ⟨rfl, rfl⟩

theorem parse_layerCount (text : List Char) :
    (parse text).layerCount = (visitedHeights text).length := by
  have h0 : ZInv initPState := by
    intro q hq hpos
    simp [initPState] at hq
    rw [← hq] at hpos
    exact absurd hpos (by norm_num)
  have hsync := foldl_sync (splitLines text) initPState h0
  unfold parse visitedHeights
  rw [finalize_layerCount, ← hsync.1]
  rfl

/-- C4: `parse` reports `layerCount` equal to the number of distinct
positive Z-heights visited by motion commands after rounding to 3
decimals, for every input text; and on the stream whose Z values are
exactly 0.2, 0.2, 0.4, 0.6 it reports `layerCount = 3`,
`firstLayerHeight = 0.2` and `layerHeight = 0.2` (the most frequent
rounded delta of the first sorted heights). -/
theorem claim_C4 :
    (∀ text : List Char, (parse text).layerCount = (visitedHeights text).length) ∧
    (parse "G1 Z0.2\nG1 Z0.2\nG1 Z0.4\nG1 Z0.6".data).layerCount = 3 ∧
    (parse "G1 Z0.2\nG1 Z0.2\nG1 Z0.4\nG1 Z0.6".data).firstLayerHeight = 0.2 ∧
    (parse "G1 Z0.2\nG1 Z0.2\nG1 Z0.4\nG1 Z0.6".data).layerHeight = 0.2 := by
  refine ⟨parse_layerCount, ?_, ?_, ?_⟩ <;> with_unfolding_all decide

/-- C10: when the motion commands of a text visit exactly one distinct
positive rounded Z-height, `parse` reports `layerCount = 1` but leaves
`firstLayerHeight` and `layerHeight` at 0: the height-derived fields are
only populated from two distinct heights up. -/
theorem claim_C10 (text : List Char) (h : (visitedHeights text).length = 1) :
    (parse text).layerCount = 1 ∧ (parse text).firstLayerHeight = 0 ∧
    (parse text).layerHeight = 0 := by
  have hc : (parse text).layerCount = 1 := by rw [parse_layerCount, h]
  have hlen : ((splitLines text).foldl parseLine initPState).layerHeights.length = 1 := by
    have := finalize_layerCount ((splitLines text).foldl parseLine initPState)
    unfold parse at hc
    omega
  have hsmall := finalize_small ((splitLines text).foldl parseLine initPState)
    (by rw [sortAsc_length, hlen]; omega)
  exact ⟨hc, hsmall.1, hsmall.2⟩

/-- Closed instance of C10 on a stream visiting only Z = 0.2. -/
theorem claim_C10_witness :
    (parse "G1 Z0.2\nG1 X5 Z0.2 E1".data).layerCount = 1 ∧
    (parse "G1 Z0.2\nG1 X5 Z0.2 E1".data).firstLayerHeight = 0 ∧
    (parse "G1 Z0.2\nG1 X5 Z0.2 E1".data).layerHeight = 0 :=
  claim_C10 "G1 Z0.2\nG1 X5 Z0.2 E1".data (by with_unfolding_all decide)

/-- Whether a raw line's command code is a bed-temperature-setting
command (`M140`/`M190`). -/
def setsBedCode (raw : List Char) : Bool :=
  (lineCode (jsTrim raw) == "M140".data) || (lineCode (jsTrim raw) == "M190".data)

/-- No line of the text carries a bed-temperature-setting command. -/
def noBedTempCmd (text : List Char) : Bool :=
  (splitLines text).all (fun raw => !setsBedCode raw)

theorem stepCode_bedTemp (s : PState) (params : Params) (code : List Char)
    (h0 : code ≠ "M140".data) (h1 : code ≠ "M190".data) :
    (stepCode s code params).bedTemp = s.bedTemp := by
  unfold stepCode
  dsimp only
  split_ifs <;> simp_all [stepMotion_bedTemp]

theorem setBed_bedTemp_le (s : PState) (o : Option ℚ) :
    s.bedTemp ≤ (setBed s o).bedTemp := by
  cases o <;> simp [setBed, le_max_left]

theorem stepCode_bedTemp_le (s : PState) (params : Params) (code : List Char) :
    s.bedTemp ≤ (stepCode s code params).bedTemp := by
  unfold stepCode
  dsimp only
  split_ifs <;>
    first
      | (simp [stepMotion_bedTemp]; done)
      | (refine le_trans (le_of_eq ?_) (setBed_bedTemp_le _ _); simp [stepMotion_bedTemp])

theorem parseLine_code (raw code : List Char) (rest : List (List Char))
    (hsp : splitWs (jsTrim ((jsTrim raw).takeWhile (fun c => c ≠ ';'))) = code :: rest) :
    lineCode (jsTrim raw) = code := by
  unfold lineCode codeOfStripped strippedOf
  rw [hsp]

theorem parseLine_bedTemp_le (s : PState) (raw : List Char) :
    s.bedTemp ≤ (parseLine s raw).bedTemp := by
  unfold parseLine
  dsimp only
  split_ifs with hb hc
  · simp
  · simp
  · cases hsp : splitWs (jsTrim ((jsTrim raw).takeWhile (fun c => c ≠ ';'))) with
    | nil => simp
    | cons code rest => exact stepCode_bedTemp_le s (buildParams rest) code

theorem parseLine_bedTemp_of_not (s : PState) (raw : List Char)
    (h : setsBedCode raw = false) : (parseLine s raw).bedTemp = s.bedTemp := by
  unfold parseLine
  dsimp only
  split_ifs with hb hc
  · simp
  · rfl
  · cases hsp : splitWs (jsTrim ((jsTrim raw).takeWhile (fun c => c ≠ ';'))) with
    | nil => rfl
    | cons code rest =>
        have hcode := parseLine_code raw code rest hsp
        rw [setsBedCode, hcode] at h
        simp only [Bool.or_eq_false_iff, beq_eq_false_iff_ne, ne_eq] at h
        exact stepCode_bedTemp s (buildParams rest) code h.1 h.2

theorem foldl_bedTemp_le (lines : List (List Char)) :
    ∀ s : PState, s.bedTemp ≤ (lines.foldl parseLine s).bedTemp := by
  induction lines with
  | nil => intro s; exact le_refl _
  | cons raw rest ih =>
      intro s
      rw [List.foldl_cons]
      exact le_trans (parseLine_bedTemp_le s raw) (ih (parseLine s raw))

theorem foldl_bedTemp_const (lines : List (List Char))
    (h : ∀ raw ∈ lines, setsBedCode raw = false) :
    ∀ s : PState, (lines.foldl parseLine s).bedTemp = s.bedTemp := by
  induction lines with
  | nil => intro s; rfl
  | cons raw rest ih =>
      intro s
      rw [List.foldl_cons, ih (fun r hr => h r (List.mem_cons_of_mem _ hr)),
        parseLine_bedTemp_of_not s raw (h raw (List.mem_cons_self _ _))]

theorem parseLine_bed60 (s : PState) :
    (parseLine s "M140 S60".data).bedTemp = max s.bedTemp 60 := by
  with_unfolding_all rfl

theorem foldl_bed60 (lines : List (List Char)) (s : PState)
    (hmem : "M140 S60".data ∈ lines) :
    (60 : ℚ) ≤ (lines.foldl parseLine s).bedTemp := by
  obtain ⟨l1, l2, rfl⟩ := List.append_of_mem hmem
  rw [List.foldl_append, List.foldl_cons]
  refine le_trans ?_ (foldl_bedTemp_le l2 _)
  rw [parseLine_bed60]
  exact le_max_right _ _

theorem bedError_mem (r : GResult) (h1 : r.bedTemp = 0) (h2 : 100 < r.printMoves) :
    bedErrorWarning ∈ detectWarnings r := by
  unfold detectWarnings
  refine List.mem_append.mpr (Or.inr ?_)
  rw [if_pos ⟨h1, h2⟩]
  exact List.mem_singleton.mpr rfl

theorem no_error_level (r : GResult) (h : r.bedTemp ≠ 0) :
    ∀ w ∈ detectWarnings r, w.level ≠ WLevel.error := by
  unfold detectWarnings
  rw [if_neg (show ¬(r.bedTemp = 0 ∧ 100 < r.printMoves) by tauto)]
  intro w hw
  simp only [List.mem_append] at hw
  rcases hw with (((hw | hw) | hw) | hw) | hw <;> simp_all

theorem finalize_bedTemp (s : PState) : (finalize s).bedTemp = s.bedTemp := by
  unfold finalize; dsimp only

theorem finalize_printMoves (s : PState) : (finalize s).printMoves = s.printMoves := by
  unfold finalize; dsimp only

/-- Counterexample to C8 as stated: a stream that *contains print moves*
(three of them) and no bed-temperature-setting command, yet `parse`
produces no `error`-level diagnostic at all — the rule requires more than
100 print moves (`result.printMoves > 100`). -/
theorem claim_C8_counterexample :
    0 < (parse "G1 X1 E1\nG1 X2 E2\nG1 X3 E3".data).printMoves ∧
    noBedTempCmd "G1 X1 E1\nG1 X2 E2\nG1 X3 E3".data = true ∧
    ∀ w ∈ (parse "G1 X1 E1\nG1 X2 E2\nG1 X3 E3".data).warnings,
      w.level ≠ WLevel.error := by
  with_unfolding_all decide

/-- C8 (amended: the error requires *more than 100* print moves): a
parsed stream with more than 100 print moves and no bed-temperature
command anywhere gets the error-level no-heated-bed warning; a stream
containing a bed-temperature command setting 60 gets no error-level
warning of any kind. -/
theorem claim_C8 :
    (∀ text : List Char, noBedTempCmd text = true →
      100 < (parse text).printMoves → bedErrorWarning ∈ (parse text).warnings) ∧
    (∀ text : List Char, "M140 S60".data ∈ splitLines text →
      ∀ w ∈ (parse text).warnings, w.level ≠ WLevel.error) := by
  constructor
  · intro text hno hpm
    have hall : ∀ raw ∈ splitLines text, setsBedCode raw = false := by
      intro raw hraw
      have := List.all_eq_true.mp hno raw hraw
      simpa using this
    have hb0 : ((splitLines text).foldl parseLine initPState).bedTemp = 0 :=
      foldl_bedTemp_const (splitLines text) hall initPState
    have hpm' : 100 < ((splitLines text).foldl parseLine initPState).printMoves := by
      rw [show (parse text).printMoves =
        ((splitLines text).foldl parseLine initPState).printMoves from
        finalize_printMoves _] at hpm
      exact hpm
    show bedErrorWarning ∈ (finalize ((splitLines text).foldl parseLine initPState)).warnings
    unfold finalize
    dsimp only
    exact bedError_mem _ hb0 hpm'
  · intro text hmem w hw
    have h60 : (60 : ℚ) ≤ ((splitLines text).foldl parseLine initPState).bedTemp :=
      foldl_bed60 (splitLines text) initPState hmem
    have hne : ((splitLines text).foldl parseLine initPState).bedTemp ≠ 0 := by
      intro h0; rw [h0] at h60; norm_num at h60
    revert hw
    show w ∈ (finalize ((splitLines text).foldl parseLine initPState)).warnings →
      w.level ≠ WLevel.error
    unfold finalize
    dsimp only
    intro hw
    exact no_error_level _ hne w hw

set_option maxRecDepth 100000 in
/-- Closed instance of the amended C8 at a 101-print-move stream and at a
stream carrying `M140 S60`. -/
theorem claim_C8_witness :
    (noBedTempCmd (joinLines ((List.range 101).map
        (fun i => "G1 X1 E".data ++ natToChars (i + 1)))) = true ∧
      100 < (parse (joinLines ((List.range 101).map
        (fun i => "G1 X1 E".data ++ natToChars (i + 1))))).printMoves ∧
      bedErrorWarning ∈ (parse (joinLines ((List.range 101).map
        (fun i => "G1 X1 E".data ++ natToChars (i + 1))))).warnings) ∧
    ("M140 S60".data ∈ splitLines "M140 S60\nG1 X1 E1".data ∧
      ∀ w ∈ (parse "M140 S60\nG1 X1 E1".data).warnings, w.level ≠ WLevel.error) := by
  have h1 : noBedTempCmd (joinLines ((List.range 101).map
      (fun i => "G1 X1 E".data ++ natToChars (i + 1)))) = true := by
    with_unfolding_all decide
  have h2 : 100 < (parse (joinLines ((List.range 101).map
      (fun i => "G1 X1 E".data ++ natToChars (i + 1))))).printMoves := by
    with_unfolding_all decide
  have h3 : "M140 S60".data ∈ splitLines "M140 S60\nG1 X1 E1".data := by
    with_unfolding_all decide
  exact ⟨⟨h1, h2, claim_C8.1 _ h1 h2⟩, ⟨h3, claim_C8.2 _ h3⟩⟩

/-- Spec-side reading of the feed-rate parameters of a line: the values
of the `/F([\d.]+)/g` matches that parse to a finite number. -/
def readF : List Char → List ℚ
  | [] => []
  | c :: cs =>
      if c = 'F' then
        let run := cs.takeWhile isNumChar
        if run = [] then readF cs
        else
          (match parseFloat run with
            | JsNum.num q => [q]
            | _ => []) ++ readF (cs.drop run.length)
      else readF cs
termination_by s => s.length
decreasing_by
  all_goals simp [List.length_drop]
  all_goals omega

theorem digitChar_is_digit (k : ℕ) (hk : k < 10) :
    isDigitChar (Char.ofNat (k + 48)) = true := by
  interval_cases k <;> decide

theorem toNat_digitChar (k : ℕ) (hk : k < 10) : (Char.ofNat (k + 48)).toNat = k + 48 := by
  interval_cases k <;> decide

theorem natToChars_ne_nil (n : ℕ) : natToChars n ≠ [] := by
  unfold natToChars; split_ifs <;> simp

theorem natToChars_digits (n : ℕ) : ∀ c ∈ natToChars n, isDigitChar c = true := by
  induction n using Nat.strong_induction_on with
  | _ n ih =>
      intro c hc
      unfold natToChars at hc
      split_ifs at hc with h
      · simp at hc
        subst hc
        exact digitChar_is_digit n h
      · rcases List.mem_append.mp hc with h1 | h1
        · exact ih (n / 10) (Nat.div_lt_self (by omega) (by omega)) c h1
        · simp at h1
          subst h1
          exact digitChar_is_digit (n % 10) (Nat.mod_lt _ (by omega))

theorem digitsVal_append (ds : List Char) (c : Char) :
    digitsVal (ds ++ [c]) = 10 * digitsVal ds + (c.toNat - 48) := by
  unfold digitsVal
  rw [List.foldl_append]
  rfl

theorem digitsVal_natToChars (n : ℕ) : digitsVal (natToChars n) = n := by
  induction n using Nat.strong_induction_on with
  | _ n ih =>
      unfold natToChars
      split_ifs with h
      · show digitsVal [Char.ofNat (n + 48)] = n
        unfold digitsVal
        simp [toNat_digitChar n h]
      · rw [digitsVal_append, ih (n / 10) (Nat.div_lt_self (by omega) (by omega)),
          toNat_digitChar (n % 10) (Nat.mod_lt _ (by omega))]
        omega

theorem takeWhile_eq_self_of (p : Char → Bool) (l : List Char)
    (h : ∀ c ∈ l, p c = true) : l.takeWhile p = l := by
  induction l with
  | nil => rfl
  | cons c cs ih =>
      rw [List.takeWhile_cons, if_pos (h c (List.mem_cons_self _ _))]
      rw [ih (fun c hc => h c (List.mem_cons_of_mem _ hc))]

theorem dropWhile_eq_nil_of (p : Char → Bool) (l : List Char)
    (h : ∀ c ∈ l, p c = true) : l.dropWhile p = [] := by
  induction l with
  | nil => rfl
  | cons c cs ih =>
      rw [List.dropWhile_cons, if_pos (h c (List.mem_cons_self _ _))]
      exact ih (fun c hc => h c (List.mem_cons_of_mem _ hc))

theorem head?_natToChars_digit (n : ℕ) (c : Char) (hc : (natToChars n).head? = some c) :
    isDigitChar c = true := by
  apply natToChars_digits n
  cases h : natToChars n with
  | nil => rw [h] at hc; cases hc
  | cons a t => rw [h] at hc; simp at hc; subst hc; simp [h]

theorem parseFloat_natToChars (n : ℕ) : parseFloat (natToChars n) = JsNum.num n := by
  have hnp : ¬((natToChars n).head? = some '-' ∨ (natToChars n).head? = some '+') := by
    rintro (h | h) <;> exact absurd (head?_natToChars_digit n _ h) (by decide)
  have hnm : ¬(natToChars n).head? = some '-' := fun h => hnp (Or.inl h)
  unfold parseFloat
  dsimp only
  rw [if_neg hnp, if_neg hnm,
    takeWhile_eq_self_of isDigitChar _ (natToChars_digits n),
    dropWhile_eq_nil_of isDigitChar _ (natToChars_digits n)]
  rw [if_neg (by simp [natToChars_ne_nil n])]
  simp [digitsVal_natToChars, parseExpPart, show digitsVal [] = 0 from rfl]

theorem parseFloat_nonneg (s : List Char) (hall : ∀ c ∈ s, isNumChar c = true)
    (q : ℚ) (h : parseFloat s = JsNum.num q) : 0 ≤ q := by
  have hhead : ∀ c, s.head? = some c → isNumChar c = true := by
    intro c hc
    apply hall
    cases hs : s with
    | nil => rw [hs] at hc; cases hc
    | cons a t => rw [hs] at hc; simp at hc; subst hc; simp [hs]
  have hnm : ¬s.head? = some '-' := by
    intro hm; exact absurd (hhead '-' hm) (by decide)
  have hnp : ¬(s.head? = some '-' ∨ s.head? = some '+') := by
    rintro (hm | hm) <;> exact absurd (hhead _ hm) (by decide)
  unfold parseFloat at h
  dsimp only at h
  rw [if_neg hnp, if_neg hnm] at h
  split_ifs at h <;> (rw [JsNum.num.injEq] at h; rw [← h]; positivity)

theorem takeWhile_append_all (p : Char → Bool) (l1 l2 : List Char)
    (h1 : ∀ c ∈ l1, p c = true) (h2 : ∀ c, l2.head? = some c → p c = false) :
    (l1 ++ l2).takeWhile p = l1 ∧ (l1 ++ l2).dropWhile p = l2 := by
  induction l1 with
  | nil =>
      simp only [List.nil_append]
      cases l2 with
      | nil => exact ⟨rfl, rfl⟩
      | cons a t =>
          have ha := h2 a rfl
          rw [List.takeWhile_cons, List.dropWhile_cons]
          simp [ha]
  | cons c cs ih =>
      have hc := h1 c (List.mem_cons_self _ _)
      rw [List.cons_append, List.takeWhile_cons, List.dropWhile_cons, if_pos hc, if_pos hc]
      obtain ⟨e1, e2⟩ := ih (fun c hc => h1 c (List.mem_cons_of_mem _ hc))
      exact ⟨by rw [e1], e2⟩

theorem head?_dropWhile (p : Char → Bool) (l : List Char) :
    ∀ c, (l.dropWhile p).head? = some c → p c = false := by
  induction l with
  | nil => intro c hc; cases hc
  | cons a t ih =>
      rw [List.dropWhile_cons]
      split_ifs with h
      · exact ih
      · intro c hc
        simp at hc
        subst hc
        simpa using h

theorem drop_takeWhile_length (p : Char → Bool) (l : List Char) :
    l.drop (l.takeWhile p).length = l.dropWhile p := by
  induction l with
  | nil => rfl
  | cons a t ih =>
      rw [List.takeWhile_cons, List.dropWhile_cons]
      split_ifs with h
      · simpa using ih
      · simp

theorem mem_takeWhile_sat (p : Char → Bool) (l : List Char) :
    ∀ c ∈ l.takeWhile p, p c = true := by
  induction l with
  | nil => intro c hc; cases hc
  | cons a t ih =>
      rw [List.takeWhile_cons]
      split_ifs with h
      · intro c hc
        rcases List.mem_cons.mp hc with rfl | hc
        · exact h
        · exact ih c hc
      · intro c hc; cases hc

theorem replaceAllNum_nil (key : Char) (subst : JsNum → List Char) :
    replaceAllNum key subst [] = [] := by
  rw [replaceAllNum]

theorem replaceAllNum_cons (key : Char) (subst : JsNum → List Char) (c : Char)
    (cs : List Char) :
    replaceAllNum key subst (c :: cs) =
      if c = key then
        (if cs.takeWhile isNumChar = [] then c :: replaceAllNum key subst cs
         else (c :: subst (parseFloat (cs.takeWhile isNumChar))) ++
           replaceAllNum key subst (cs.drop (cs.takeWhile isNumChar).length))
      else c :: replaceAllNum key subst cs := by
  rw [replaceAllNum]

theorem readF_nil : readF [] = [] := by rw [readF]

theorem readF_cons (c : Char) (cs : List Char) :
    readF (c :: cs) =
      if c = 'F' then
        (if cs.takeWhile isNumChar = [] then readF cs
         else (match parseFloat (cs.takeWhile isNumChar) with
            | JsNum.num q => [q]
            | _ => []) ++ readF (cs.drop (cs.takeWhile isNumChar).length))
      else readF cs := by
  rw [readF]

theorem replaceAllNum_head (key : Char) (subst : JsNum → List Char) (s : List Char) :
    (replaceAllNum key subst s).head? = s.head? := by
  cases s with
  | nil => rw [replaceAllNum_nil]
  | cons c cs =>
      rw [replaceAllNum_cons]
      split_ifs with h1 h2 <;> simp

theorem readF_append_noF (l t : List Char) (h : ∀ c ∈ l, c ≠ 'F') :
    readF (l ++ t) = readF t := by
  induction l with
  | nil => rfl
  | cons c cs ih =>
      rw [List.cons_append, readF_cons, if_neg (h c (List.mem_cons_self _ _))]
      exact ih (fun c hc => h c (List.mem_cons_of_mem _ hc))

theorem readF_replaceAllNum (m : ℚ) (hm : 0 ≤ m) :
    ∀ (N : ℕ) (s : List Char), s.length ≤ N →
      readF (replaceAllNum 'F' (substSpeed m) s) =
        (readF s).map (fun q => (jround (q * m) : ℚ)) := by
  intro N
  induction N with
  | zero =>
      intro s hs
      rw [List.length_eq_zero.mp (Nat.le_zero.mp hs), replaceAllNum_nil, readF_nil]
      rfl
  | succ N ih =>
      intro s hs
      cases s with
      | nil => rw [replaceAllNum_nil, readF_nil]; rfl
      | cons c cs =>
          have hcs : cs.length ≤ N := by
            simp only [List.length_cons] at hs; omega
          rw [replaceAllNum_cons, readF_cons]
          by_cases hF : c = 'F'
          · subst hF
            rw [if_pos rfl, if_pos rfl]
            by_cases hrun : cs.takeWhile isNumChar = []
            · rw [if_pos hrun, if_pos hrun, readF_cons, if_pos rfl]
              have hrun' : (replaceAllNum 'F' (substSpeed m) cs).takeWhile isNumChar = [] := by
                cases hrc : replaceAllNum 'F' (substSpeed m) cs with
                | nil => rfl
                | cons a t =>
                    have hh : cs.head? = some a := by
                      rw [← replaceAllNum_head 'F' (substSpeed m) cs, hrc]; rfl
                    have ha : isNumChar a = false := by
                      cases hcc : cs with
                      | nil => rw [hcc] at hh; cases hh
                      | cons b t2 =>
                          rw [hcc] at hh
                          simp only [List.head?_cons, Option.some.injEq] at hh
                          rw [hcc, List.takeWhile_cons, hh] at hrun
                          by_cases hb : isNumChar a = true
                          · rw [if_pos hb] at hrun; cases hrun
                          · simpa using hb
                    rw [List.takeWhile_cons, ha]
                    simp
              rw [if_pos hrun']
              exact ih cs hcs
            · rw [if_neg hrun, if_neg hrun]
              have hdroplen : (cs.drop (cs.takeWhile isNumChar).length).length ≤ N := by
                rw [List.length_drop]; omega
              have hheadR : ∀ a, (replaceAllNum 'F' (substSpeed m)
                  (cs.drop (cs.takeWhile isNumChar).length)).head? = some a →
                  isNumChar a = false := by
                intro a haa
                rw [replaceAllNum_head, drop_takeWhile_length] at haa
                exact head?_dropWhile isNumChar cs a haa
              rcases parseFloat_finite (cs.takeWhile isNumChar) with hnan | ⟨q, hq⟩
              · rw [hnan]
                show readF (('F' :: "NaN".data) ++ _) = _
                rw [List.cons_append, readF_cons, if_pos rfl]
                have : ("NaN".data ++ replaceAllNum 'F' (substSpeed m)
                    (cs.drop (cs.takeWhile isNumChar).length)).takeWhile isNumChar = [] := by
                  rw [show "NaN".data ++ replaceAllNum 'F' (substSpeed m)
                      (cs.drop (cs.takeWhile isNumChar).length) =
                      'N' :: ("aN".data ++ replaceAllNum 'F' (substSpeed m)
                        (cs.drop (cs.takeWhile isNumChar).length)) from rfl,
                    List.takeWhile_cons, if_neg (by decide : ¬isNumChar 'N' = true)]
                rw [if_pos this,
                  readF_append_noF "NaN".data _ (by intro c hc; fin_cases hc <;> decide),
                  ih _ hdroplen]
                rfl
              · rw [hq]
                have hq0 : 0 ≤ q :=
                  parseFloat_nonneg _ (mem_takeWhile_sat isNumChar cs) q hq
                have hn0 : (0 : ℤ) ≤ jround (q * m) := by
                  rw [jround]
                  exact Int.le_floor.mpr (by push_cast; positivity)
                show readF (('F' :: intToChars (jround (q * m))) ++ _) = _
                rw [show intToChars (jround (q * m)) =
                    natToChars (jround (q * m)).natAbs from by
                  rw [intToChars, if_neg (by omega)]]
                rw [List.cons_append, readF_cons, if_pos rfl]
                obtain ⟨ht, hd⟩ := takeWhile_append_all isNumChar
                  (natToChars (jround (q * m)).natAbs)
                  (replaceAllNum 'F' (substSpeed m) (cs.drop (cs.takeWhile isNumChar).length))
                  (fun c hc => by simp [isNumChar, natToChars_digits _ c hc])
                  hheadR
                rw [ht, if_neg (natToChars_ne_nil _), parseFloat_natToChars,
                  List.drop_left, ih _ hdroplen]
                have hcast : (((jround (q * m)).natAbs : ℕ) : ℚ) = ((jround (q * m) : ℤ) : ℚ) := by
                  rw [Int.cast_natAbs]
                  exact_mod_cast abs_of_nonneg hn0
                rw [hcast]
                simp
          · rw [if_neg hF, if_neg hF, readF_cons, if_neg hF]
            exact ih cs hcs

/-- C5: applying the speed override at 100 % returns every line — hence
every feed-rate parameter — unchanged; applying it at 50 % rewrites every
motion line so that its feed-rate (`F`) parameters are replaced by half
their value, rounded to the nearest integer (`readF` reads the numeric
`F` parameters of a line). -/
theorem claim_C5 :
    (∀ lines : List (List Char), applySpeedOverride 100 lines = lines) ∧
    (∀ (lines : List (List Char)) (i : ℕ) (l : List Char), lines[i]? = some l →
      lineCode l = "G0".data ∨ lineCode l = "G1".data →
      ∃ l', (applySpeedOverride 50 lines)[i]? = some l' ∧
        readF l' = (readF l).map (fun q => (jround (q / 2) : ℚ))) := by
  constructor
  · intro lines
    rw [applySpeedOverride, if_pos rfl]
  · intro lines i l hget hcode
    have hst : strippedOf l ≠ [] := by
      intro h0
      have hlc : lineCode l = [] := by
        rw [lineCode, h0]; rfl
      rcases hcode with hc | hc <;> rw [hlc] at hc <;> exact absurd hc (by decide)
    refine ⟨speedLine (((50 : ℤ) : ℚ) / 100) l, ?_, ?_⟩
    · rw [applySpeedOverride, if_neg (by decide), List.getElem?_map, hget, Option.map_some']
    · rw [speedLine, if_neg hst, if_pos hcode,
        readF_replaceAllNum (((50 : ℤ) : ℚ) / 100) (by norm_num) l.length l (le_refl _)]
      apply List.map_congr_left
      intro q hq
      have harg : q * (((50 : ℤ) : ℚ) / 100) = q / 2 := by push_cast; ring
      rw [harg]

/-- Closed instance of C5: 100 % leaves a motion line intact; 50 % maps
`F1801` to `F901` (and an `F31` in the trailing comment to `F16`). -/
theorem claim_C5_witness :
    applySpeedOverride 100 ["G1 X1 F1800".data] = ["G1 X1 F1800".data] ∧
    ∃ l', (applySpeedOverride 50 ["G1 F1801 ; F31".data])[0]? = some l' ∧
      readF l' = (readF "G1 F1801 ; F31".data).map (fun q => (jround (q / 2) : ℚ)) :=
  ⟨claim_C5.1 _, claim_C5.2 ["G1 F1801 ; F31".data] 0 _ rfl
    (Or.inr (by with_unfolding_all decide))⟩
